import Mathlib

/-!
Shallow embedding of the quiz application's normalization, classification and
session logic (src/index.tsx) for checking the natural-language specification.

JavaScript values produced by `JSON.parse` are modelled by the inductive type
`Json` below.  JavaScript numbers are modelled as integers (`Int`): every
numeric literal relevant to the embedded code paths (option indices, counts,
timestamps) is integral, and numeric literals with a fractional part or an
exponent are rejected by the embedded parser (they occur nowhere in the
verified behaviours).  `undefined` is modelled by `Option.none` wherever a
value may be absent.
-/

inductive Json where
  | null : Json
  | bool : Bool → Json
  | num : Int → Json
  | str : String → Json
  | arr : List Json → Json
  | obj : List (String × Json) → Json

/-- JavaScript truthiness of a `Json` value (`false`, `null`, `0`, `""` are
falsy; objects and arrays are always truthy). -/
def jsTruthy : Json → Bool
  | Json.null => false
  | Json.bool b => b
  | Json.num n => n ≠ 0
  | Json.str s => s ≠ ""
  | Json.arr _ => true
  | Json.obj _ => true

/-- Truthiness of a possibly-absent value (`undefined` is falsy). -/
def jsTruthyOpt : Option Json → Bool
  | none => false
  | some v => jsTruthy v

/-- Property lookup `o[k]` for object values; duplicate keys follow
`JSON.parse`, where the last occurrence wins.  On non-object values the
access yields `undefined` (`none`); call sites where the base could be
`null`/`undefined` (a JavaScript `TypeError`) are modelled separately. -/
def Json.getField : Json → String → Option Json
  | Json.obj fs, k => fs.foldl (fun acc p => if p.1 = k then some p.2 else acc) none
  | _, _ => none

/-- The value is `null` or absent: the set skipped by `??`/`== null`. -/
def jsNullish : Option Json → Bool
  | none => true
  | some Json.null => true
  | some _ => false

/-- One step of the nullish-coalescing operator `a ?? b`. -/
def jsCoalesce (a b : Option Json) : Option Json :=
  if jsNullish a then b else a

/-- `a ?? b ?? c ?? ...`: the first non-nullish value of the list. -/
def jsChain (l : List (Option Json)) : Option Json :=
  l.foldr (fun a acc => jsCoalesce a acc) none

/-- One step of logical-or on JavaScript values: `a || b`. -/
def jsOrJson (a b : Option Json) : Option Json :=
  if jsTruthyOpt a then a else b

/-- Whitespace in the sense of JavaScript's `\s`, `trim` (the common cases;
exotic Unicode space characters do not occur in the verified inputs). -/
def jsWsChar (c : Char) : Bool :=
  c = ' ' ∨ c = '\t' ∨ c = '\n' ∨ c = '\r' ∨ c = '\x0b' ∨ c = '\x0c' ∨
  c = ' ' ∨ c = '﻿'

def jsTrimList (cs : List Char) : List Char :=
  ((cs.dropWhile jsWsChar).reverse.dropWhile jsWsChar).reverse

/-- `String.prototype.trim`. -/
def jsTrim (s : String) : String :=
  String.mk (jsTrimList s.data)

/-- ASCII lowercasing, modelling `toLowerCase` on the inputs in scope. -/
def jsToLower (s : String) : String :=
  String.mk (s.data.map Char.toLower)

/-- ASCII uppercasing, modelling `toUpperCase` on the inputs in scope. -/
def jsToUpper (s : String) : String :=
  String.mk (s.data.map Char.toUpper)

mutual

/-- JavaScript `String(v)` conversion of a parsed JSON value. -/
def jsToString : Json → String
  | Json.null => "null"
  | Json.bool b => if b then "true" else "false"
  | Json.num n => toString n
  | Json.str s => s
  | Json.arr xs => String.intercalate "," (jsToStringElems xs)
  | Json.obj _ => "[object Object]"

/-- Array elements under `Array.prototype.toString`: `null` renders empty. -/
def jsToStringElems : List Json → List String
  | [] => []
  | Json.null :: xs => "" :: jsToStringElems xs
  | x :: xs => jsToString x :: jsToStringElems xs

end

-- JSON whitespace accepted between tokens by `JSON.parse`.
def jsonWs (c : Char) : Bool :=
  c = ' ' ∨ c = '\t' ∨ c = '\n' ∨ c = '\r'

def skipWs (cs : List Char) : List Char :=
  cs.dropWhile jsonWs

def hexVal (c : Char) : Option Nat :=
  if '0' ≤ c ∧ c ≤ '9' then some (c.toNat - '0'.toNat)
  else if 'a' ≤ c ∧ c ≤ 'f' then some (c.toNat - 'a'.toNat + 10)
  else if 'A' ≤ c ∧ c ≤ 'F' then some (c.toNat - 'A'.toNat + 10)
  else none

/-- String-literal body parser: consumes up to the closing quote.  Raw
control characters are rejected as in `JSON.parse`. -/
def parseStrBody : List Char → Option (List Char × List Char)
  | [] => none
  | '"' :: rest => some ([], rest)
  | '\\' :: esc =>
    match esc with
    | '"' :: rest => (parseStrBody rest).map (fun p => ('"' :: p.1, p.2))
    | '\\' :: rest => (parseStrBody rest).map (fun p => ('\\' :: p.1, p.2))
    | '/' :: rest => (parseStrBody rest).map (fun p => ('/' :: p.1, p.2))
    | 'b' :: rest => (parseStrBody rest).map (fun p => ('\x08' :: p.1, p.2))
    | 'f' :: rest => (parseStrBody rest).map (fun p => ('\x0c' :: p.1, p.2))
    | 'n' :: rest => (parseStrBody rest).map (fun p => ('\n' :: p.1, p.2))
    | 'r' :: rest => (parseStrBody rest).map (fun p => ('\r' :: p.1, p.2))
    | 't' :: rest => (parseStrBody rest).map (fun p => ('\t' :: p.1, p.2))
    | 'u' :: h1 :: h2 :: h3 :: h4 :: rest =>
      match hexVal h1, hexVal h2, hexVal h3, hexVal h4 with
      | some a, some b, some c, some d =>
        (parseStrBody rest).map
          (fun p => (Char.ofNat (((a * 16 + b) * 16 + c) * 16 + d) :: p.1, p.2))
      | _, _, _, _ => none
    | _ => none
  | c :: rest =>
    if c.toNat < 32 then none
    else (parseStrBody rest).map (fun p => (c :: p.1, p.2))

def takeDigits (cs : List Char) : List Char × List Char :=
  (cs.takeWhile Char.isDigit, cs.dropWhile Char.isDigit)

def digitsToNat (ds : List Char) : Nat :=
  ds.foldl (fun acc c => acc * 10 + (c.toNat - '0'.toNat)) 0

/-- Integral numeric literals (see the header note on numbers). -/
def parseNumLit (cs : List Char) : Option (Int × List Char) :=
  match cs with
  | '-' :: rest =>
    let (ds, rest') := takeDigits rest
    if ds.isEmpty then none else some (-(digitsToNat ds : Int), rest')
  | _ =>
    let (ds, rest') := takeDigits cs
    if ds.isEmpty then none else some ((digitsToNat ds : Int), rest')

mutual

def parseVal : Nat → List Char → Option (Json × List Char)
  | 0, _ => none
  | _ + 1, [] => none
  | fuel + 1, c :: cs =>
    if c = 'n' then
      match cs with
      | 'u' :: 'l' :: 'l' :: rest => some (Json.null, rest)
      | _ => none
    else if c = 't' then
      match cs with
      | 'r' :: 'u' :: 'e' :: rest => some (Json.bool true, rest)
      | _ => none
    else if c = 'f' then
      match cs with
      | 'a' :: 'l' :: 's' :: 'e' :: rest => some (Json.bool false, rest)
      | _ => none
    else if c = '"' then
      (parseStrBody cs).map (fun p => (Json.str (String.mk p.1), p.2))
    else if c = '[' then
      match skipWs cs with
      | ']' :: rest => some (Json.arr [], rest)
      | cs' => (parseItems fuel cs').map (fun p => (Json.arr p.1, p.2))
    else if c = '{' then
      match skipWs cs with
      | '}' :: rest => some (Json.obj [], rest)
      | cs' => (parseFields fuel cs').map (fun p => (Json.obj p.1, p.2))
    else
      (parseNumLit (c :: cs)).map (fun p => (Json.num p.1, p.2))

def parseItems : Nat → List Char → Option (List Json × List Char)
  | 0, _ => none
  | fuel + 1, cs =>
    match parseVal fuel cs with
    | none => none
    | some (v, rest) =>
      match skipWs rest with
      | ',' :: rest' =>
        (parseItems fuel (skipWs rest')).map (fun p => (v :: p.1, p.2))
      | ']' :: rest' => some ([v], rest')
      | _ => none

def parseFields : Nat → List Char → Option (List (String × Json) × List Char)
  | 0, _ => none
  | fuel + 1, cs =>
    match cs with
    | '"' :: cs' =>
      match parseStrBody cs' with
      | none => none
      | some (key, rest) =>
        match skipWs rest with
        | ':' :: rest' =>
          match parseVal fuel (skipWs rest') with
          | none => none
          | some (v, rest'') =>
            match skipWs rest'' with
            | ',' :: rest3 =>
              (parseFields fuel (skipWs rest3)).map
                (fun p => ((String.mk key, v) :: p.1, p.2))
            | '}' :: rest3 => some ([(String.mk key, v)], rest3)
            | _ => none
        | _ => none
    | _ => none

end

/-- `JSON.parse`, as a total function returning `none` on failure. -/
def jsonParse (s : String) : Option Json :=
  match parseVal (s.length + 1) (skipWs s.data) with
  | some (v, rest) => if skipWs rest = [] then some v else none
  | none => none

/-- `tryJsonParse` (src/index.tsx:274): `JSON.parse` in a try/catch returning
`null` on failure.  A successfully parsed JSON `null` is indistinguishable
from failure in the source (both yield `null`), so both map to `none`. -/
def tryJsonParse (s : String) : Option Json :=
  match jsonParse s with
  | some Json.null => none
  | r => r

/-!
`stripCodeFences` (src/index.tsx:260).  The source's first regex branch
matches `raw` against a pattern whose only capture group is a lazy
`[\s\S]*?` at the end of the pattern; such a group always succeeds capturing
the empty string, so `fence[1]` is `""` (falsy) and the branch body never
runs.  The function therefore always reduces to the final line: trim, strip
one leading three-backtick marker (optionally followed by `json`,
case-insensitively), strip one trailing three-backtick marker, trim again.
-/

def stripLeadFence (s : String) : String :=
  match s.data with
  | '`' :: '`' :: '`' :: rest =>
    if (rest.take 4).map Char.toLower = ['j', 's', 'o', 'n'] then String.mk (rest.drop 4)
    else String.mk rest
  | _ => s

def stripTrailFence (s : String) : String :=
  match s.data.reverse with
  | '`' :: '`' :: '`' :: rrest => String.mk rrest.reverse
  | _ => s

def stripCodeFences (raw : String) : String :=
  if raw = "" then ""
  else jsTrim (stripTrailFence (stripLeadFence (jsTrim raw)))

/-- `safeTrimCommas` (src/index.tsx:321): removes commas followed only by
whitespace and a closing `}` or `]` (the regex `,\s*([}\]])`, global). -/
def stcGo : Nat → Option (List Char) → List Char → List Char
  | 0, none, l => l
  | 0, some ws, l => ',' :: ws.reverse ++ l
  | _ + 1, none, [] => []
  | fuel + 1, none, c :: rest =>
    if c = ',' then stcGo fuel (some []) rest
    else c :: stcGo fuel none rest
  | _ + 1, some ws, [] => ',' :: ws.reverse
  | fuel + 1, some ws, c :: rest =>
    if jsWsChar c then stcGo fuel (some (c :: ws)) rest
    else if c = '}' ∨ c = ']' then c :: stcGo fuel none rest
    else if c = ',' then (',' :: ws.reverse) ++ stcGo fuel (some []) rest
    else (',' :: ws.reverse) ++ (c :: stcGo fuel none rest)

def safeTrimCommas (s : String) : String :=
  String.mk (stcGo (s.data.length + 1) none s.data)

/-- Length of the shortest prefix over which the bracket depth (counting the
given opener/closer naively, strings included) returns to zero; the scan of
src/index.tsx:306-315. -/
def balancedLen (op cl : Char) : List Char → Nat → Nat → Option Nat
  | [], _, _ => none
  | c :: rest, depth, count =>
    let d := if c = op then depth + 1 else if c = cl then depth - 1 else depth
    if d = 0 then some (count + 1)
    else balancedLen op cl rest d (count + 1)

/-- The fallback scan of `extractFirstJsonBlock`: for each opening bracket,
take the depth-balanced candidate substring; return the first candidate that
parses truthily, otherwise resume at the next character. -/
def blockScan : List Char → Option String
  | [] => none
  | c :: rest =>
    if c = '{' ∨ c = '[' then
      let cl := if c = '{' then '}' else ']'
      match balancedLen c cl (c :: rest) 0 0 with
      | some n =>
        let cand := String.mk ((c :: rest).take n)
        if jsTruthyOpt (tryJsonParse cand) then some cand else blockScan rest
      | none => blockScan rest
    else blockScan rest

/-- `extractFirstJsonBlock` (src/index.tsx:279). -/
def extractFirstJsonBlock (raw : String) : Option String :=
  let s := stripCodeFences raw
  if s = "" then none
  else if jsTruthyOpt (tryJsonParse s) then some s
  else
    -- Envelope unwrapping (src/index.tsx:284-295).  `asObj` is the same
    -- parse as the guard above, so whenever it is a truthy object the
    -- function has already returned; the branch is kept for fidelity.
    let asObj := tryJsonParse s
    let choicesInner :=
      match asObj with
      | some o =>
        if jsTruthyOpt (Json.getField o "choices") then
          match Json.getField o "choices" with
          | some (Json.arr (c0 :: _)) =>
            match (Json.getField c0 "message").bind (fun m => Json.getField m "content") with
            | some inner =>
              if jsTruthy inner then
                let innerStripped := stripCodeFences (jsToString inner)
                if jsTruthyOpt (tryJsonParse innerStripped) then some innerStripped
                else none
              else none
            | none => none
          | _ => none
        else none
      | none => none
    match choicesInner with
    | some r => some r
    | none =>
      let candidatesInner :=
        match asObj with
        | some o =>
          if jsTruthyOpt (Json.getField o "candidates") then
            match Json.getField o "candidates" with
            | some (Json.arr (c0 :: _)) =>
              match (Json.getField c0 "content").bind (fun ct => Json.getField ct "parts") with
              | some (Json.arr (p0 :: _)) =>
                match Json.getField p0 "text" with
                | some inner =>
                  if jsTruthy inner then
                    let innerStripped := stripCodeFences (jsToString inner)
                    if jsTruthyOpt (tryJsonParse innerStripped) then some innerStripped
                    else none
                  else none
                | none => none
              | _ => none
            | _ => none
          else none
        | none => none
      match candidatesInner with
      | some r => some r
      | none => blockScan s.data

/-- The shared parse pipeline of the three normalizers (src/index.tsx:369-372,
488-491): extract a block, parse it, on failure retry after trailing-comma
repair (the `??` falls through only when the first parse yields `null`). -/
def parseLoose (raw : String) : Option Json :=
  match extractFirstJsonBlock raw with
  | none => none
  | some block =>
    match tryJsonParse block with
    | some v => some v
    | none => tryJsonParse (safeTrimCommas block)

/-! Quiz domain model (src/index.tsx:16-63).  The loosely-typed optional
fields are carried as the raw parsed values (`Option Json`), which is what
the normalizer stores in them at runtime. -/

inductive QuestionType where
  | single : QuestionType
  | multiple : QuestionType
deriving DecidableEq

structure QuizOption where
  id : String
  text : String
deriving DecidableEq

structure QuizQuestion where
  id : String
  type : QuestionType
  stem : String
  options : List QuizOption
  answerIds : List String
  analysis : Option Json
  coreConcept : Option Json
  optionAnalyses : Option Json
  extendedCases : Option (List Json)
  sourceDocument : Option Json
  bookTitle : Option Json
  chapterTitle : Option Json
  assignedBookId : Option Json
  assignedTopicId : Option Json
  question : Option String
  correctOptions : Option (List String)

/-- `letters[i] ?? String(i + 1)` with `letters = 'A'..'Z'`
(src/index.tsx:388,392,396,400). -/
def letterOr (i : Nat) : String :=
  if i < 26 then String.mk [Char.ofNat ('A'.toNat + i)] else toString (i + 1)

def isJsonStr : Json → Bool
  | Json.str _ => true
  | _ => false

/-- `typeof opt === 'object' && opt !== null` (arrays are objects too). -/
def isJsObject : Json → Bool
  | Json.obj _ => true
  | Json.arr _ => true
  | _ => false

/-- `toOptions` (src/index.tsx:389-402). -/
def toOptions (options : Json) : List QuizOption :=
  match options with
  | Json.arr l =>
    let strMode := match l with
      | [] => false
      | t0 :: _ => isJsonStr t0
    if strMode then
      l.enum.map (fun p => { id := letterOr p.1, text := jsToString p.2 })
    else
      l.enum.map (fun p =>
        if isJsObject p.2 then
          { id := match jsChain [Json.getField p.2 "id", Json.getField p.2 "label"] with
              | some v => jsToString v
              | none => letterOr p.1
            text := match jsChain [Json.getField p.2 "text", Json.getField p.2 "value",
                Json.getField p.2 "title"] with
              | some v => jsToString v
              | none => "" }
        else { id := letterOr p.1, text := jsToString p.2 })
  | _ => []

/-- Insertion into the `Set<string>` of collected answer ids (JavaScript sets
preserve insertion order, and `Array.from` reads them back in that order). -/
def ansInsert (ids : List String) (x : String) : List String :=
  if ids.contains x then ids else ids ++ [x]

/-- `byIndex` (src/index.tsx:406): a numeric answer denotes an option index;
out-of-range (or negative) indices resolve to `undefined` and are ignored. -/
def byIndex (opts : List QuizOption) (ids : List String) (idx : Int) : List String :=
  if idx < 0 then ids
  else match opts.get? idx.toNat with
    | some opt => ansInsert ids opt.id
    | none => ids

/-- `byIdOrLabel` (src/index.tsx:410): match an answer token against option
ids, case-insensitively on the uppercased forms. -/
def byIdOrLabel (opts : List QuizOption) (ids : List String) (x : Json) : List String :=
  match x with
  | Json.null => ids
  | _ =>
    match opts.find? (fun o => o.id = jsTrim (jsToString x) ∨
        jsToUpper o.id = jsToUpper (jsTrim (jsToString x))) with
    | some hit => ansInsert ids hit.id
    | none => ids

/-- Splitting on maximal runs of the separator class, as
`String.prototype.split` with the regex `[, \t]+` does (empty tokens survive
only at the two ends). -/
def splitRunsGo (sep : Char → Bool) : List Char → List Char → Bool → List String
  | [], cur, _ => [String.mk cur.reverse]
  | c :: rest, cur, prevSep =>
    if sep c then
      if prevSep then splitRunsGo sep rest [] true
      else String.mk cur.reverse :: splitRunsGo sep rest [] true
    else splitRunsGo sep rest (c :: cur) false

def answerSepChar (c : Char) : Bool :=
  c = ',' ∨ c = ' ' ∨ c = '\t'

/-- The `??` chain selecting the raw answers field (src/index.tsx:417). -/
def answerFieldOf (item : Json) : Option Json :=
  jsChain [Json.getField item "answerIds", Json.getField item "answers",
    Json.getField item "answer", Json.getField item "answerId",
    Json.getField item "correctOption", Json.getField item "correctOptions",
    Json.getField item "correctIndex", Json.getField item "correctIndices"]

/-- The ids collected from the answers field before the legacy
`answerIndex` fallback (src/index.tsx:418-435); `str` in the source is the
trimmed answer string, inlined here. -/
def answersBase (opts : List QuizOption) (a : Option Json) : List String :=
  match a with
  | some (Json.arr vs) =>
    vs.foldl (fun ids v =>
      match v with
      | Json.num n => byIndex opts ids n
      | _ => byIdOrLabel opts ids v) []
  | some (Json.str s0) =>
    if (jsTrim s0).data.contains ',' ∨ (jsTrim s0).data.any jsWsChar then
      (splitRunsGo answerSepChar (jsTrim s0).data [] false).foldl
        (fun ids piece => byIdOrLabel opts ids (Json.str piece)) []
    else
      (jsTrim s0).data.foldl
        (fun ids ch => byIdOrLabel opts ids (Json.str (String.mk [ch]))) []
  | some (Json.num n) => byIndex opts [] n
  | _ => []

/-- `normalizeAnswers` (src/index.tsx:404-441). -/
def normalizeAnswers (item : Json) (opts : List QuizOption) : List String :=
  if (answersBase opts (answerFieldOf item)).isEmpty then
    match Json.getField item "answerIndex" with
    | some (Json.num n) => byIndex opts (answersBase opts (answerFieldOf item)) n
    | _ => answersBase opts (answerFieldOf item)
  else answersBase opts (answerFieldOf item)

def getArrField (v : Json) (k : String) : Option (List Json) :=
  match Json.getField v k with
  | some (Json.arr l) => some l
  | _ => none

/-- Question-array location (src/index.tsx:374-386). -/
def locateQuizArr (rawObj : Json) : Option (List Json) :=
  match rawObj with
  | Json.arr l => some l
  | _ =>
    match getArrField rawObj "questions" with
    | some l => some l
    | none =>
      match getArrField rawObj "data" with
      | some l => some l
      | none =>
        -- `rawObj.result && Array.isArray(rawObj.result.questions)`
        match (Json.getField rawObj "result").bind
            (fun r => if jsTruthy r then getArrField r "questions" else none) with
        | some l => some l
        | none =>
            if jsTruthyOpt (Json.getField rawObj "mappings") ∧
                (getArrField rawObj "mappings").isSome then
              none  -- `arr = null` (unrelated structure; not quiz)
            else if jsTruthy rawObj ∧
                jsTruthyOpt (jsOrJson (Json.getField rawObj "stem") (Json.getField rawObj "question")) ∧
                jsTruthyOpt (jsOrJson (Json.getField rawObj "options") (Json.getField rawObj "choices")) then
              some [rawObj]
            else none

/-- One `arr.forEach` iteration of `normalizeQuizJson` (src/index.tsx:444-475);
`now` stands for `Date.now()` in the generated fallback id. -/
def buildQuestion (now : Int) (idx : Nat) (item : Json) : Option QuizQuestion :=
  if ¬ jsTruthy item then none
  else
    let stem := jsToString ((jsChain [Json.getField item "stem", Json.getField item "question",
      Json.getField item "title"]).getD (Json.str ""))
    let options := toOptions ((jsChain [Json.getField item "options",
      Json.getField item "choices"]).getD (Json.arr []))
    let answerIds := normalizeAnswers item options
    if stem = "" ∨ options = [] then none
    else some {
      id := jsToString ((jsChain [Json.getField item "id", Json.getField item "qid"]).getD
        (Json.str ("q-" ++ toString now ++ "-" ++ toString idx)))
      type := if answerIds.length > 1 then QuestionType.multiple else QuestionType.single
      stem := stem
      options := options
      answerIds := answerIds
      analysis := jsChain [Json.getField item "analysis", Json.getField item "explanation",
        Json.getField item "解析"]
      coreConcept := jsChain [Json.getField item "coreConcept"]
      optionAnalyses := jsChain [Json.getField item "optionAnalyses"]
      extendedCases := match Json.getField item "extendedCases" with
        | some (Json.arr l) => some l
        | _ => none
      sourceDocument := Json.getField item "sourceDocument"
      bookTitle := jsChain [Json.getField item "bookTitle"]
      chapterTitle := jsChain [Json.getField item "chapterTitle"]
      assignedBookId := jsChain [Json.getField item "assignedBookId"]
      assignedTopicId := jsChain [Json.getField item "assignedTopicId"]
      question := some stem
      correctOptions := some answerIds }

/-- `normalizeQuizJson` (src/index.tsx:367-483). -/
def normalizeQuizJson (now : Int) (raw : String) : Option (List QuizQuestion) :=
  match parseLoose raw with
  | none => none
  | some rawObj =>
    if ¬ jsTruthy rawObj then none
    else
      match locateQuizArr rawObj with
      | none => none
      | some arr =>
        if (arr.enum.filterMap (fun p => buildQuestion now p.1 p.2)).isEmpty then none
        else some (arr.enum.filterMap (fun p => buildQuestion now p.1 p.2))

/-- `checkAnswerIsCorrect` (src/index.tsx:565): the `!q.answerIds` guard is
for legacy data whose field is `undefined`; in this model the field is always
an array, and arrays (even empty) are truthy, so the guard is omitted. -/
def checkAnswerIsCorrect (q : QuizQuestion) (selected : List String) : Bool :=
  if selected.length ≠ q.answerIds.length then false
  else selected.all (fun opt => q.answerIds.contains opt)

/-! Syllabus domain model (src/index.tsx:19-35).  `SyllabusTopic.topics` is
`Option (List SyllabusTopic)`: the normalizer attaches subtopics only when
non-empty, leaving the field `undefined` otherwise. -/

inductive SyllabusTopic where
  | mk : String → String → Option (List SyllabusTopic) → SyllabusTopic

def SyllabusTopic.id : SyllabusTopic → String
  | SyllabusTopic.mk i _ _ => i

def SyllabusTopic.title : SyllabusTopic → String
  | SyllabusTopic.mk _ t _ => t

def SyllabusTopic.topics : SyllabusTopic → Option (List SyllabusTopic)
  | SyllabusTopic.mk _ _ ts => ts

structure SyllabusBook where
  id : String
  title : String
  topics : List SyllabusTopic

structure SyllabusPreset where
  id : String
  name : String
  books : List SyllabusBook

/-- Characters kept by the slug regex `[^a-z0-9一-龥]+` of `slugId`
(src/index.tsx:326). -/
def slugKeep (c : Char) : Bool :=
  ('a' ≤ c ∧ c ≤ 'z') ∨ ('0' ≤ c ∧ c ≤ '9') ∨
  (0x4e00 ≤ c.toNat ∧ c.toNat ≤ 0x9fa5)

/-- Replace each maximal run of non-kept characters with a single dash. -/
def slugCollapse : List Char → Bool → List Char
  | [], _ => []
  | c :: rest, prevDash =>
    if slugKeep c then c :: slugCollapse rest false
    else if prevDash then slugCollapse rest true
    else '-' :: slugCollapse rest true

/-- `slugId` (src/index.tsx:326); `idx` is a JavaScript number (`Date.now()`
at one call site), hence `Int`.  The source parameter is named `prefix`. -/
def slugId (pre : String) (title : String) (idx : Int) : String :=
  let base := String.mk
    (((slugCollapse (jsToLower (jsTrim title)).data false).reverse.dropWhile
      (fun c => c = '-')).reverse)
  pre ++ "-" ++ (if base = "" then "item" else base) ++ "-" ++ toString idx

/-- The subtopics list consulted for an object topic: `t.topics`, else
`t.subtopics`, else `t.children`, else none (src/index.tsx:523-529). -/
def topicSubsRaw (t : Json) : Option (List Json) :=
  match getArrField t "topics" with
  | some l => some l
  | none =>
    match getArrField t "subtopics" with
    | some l => some l
    | none => getArrField t "children"

mutual

/-- `processTopics` (src/index.tsx:504-539), in an exception monad: a topic
object with a falsy `title ?? name`, or a topic that is neither a string nor
an object, throws, aborting the whole normalization.  The per-element logic
is split into `procTopicOne`; the `fuel` bound is spent one unit per list
step and one per element, and callers pass a bound that is always
sufficient (the input string length), so the `fuel = 0` cases are
unreachable — they conservatively throw. -/
def procTopics : Nat → List Json → Nat → Except String (List SyllabusTopic)
  | 0, _, _ => Except.error "fuel"
  | _ + 1, [], _ => Except.ok []
  | fuel + 1, t :: rest, ti => do
    let x ← procTopicOne fuel ti t
    let xs ← procTopics fuel rest (ti + 1)
    Except.ok (x :: xs)

def procTopicOne : Nat → Nat → Json → Except String SyllabusTopic
  | 0, _, _ => Except.error "fuel"
  | fuel + 1, ti, t =>
    match t with
    | Json.str s => Except.ok (SyllabusTopic.mk (slugId "topic" s ti) (jsTrim s) none)
    | Json.obj _ | Json.arr _ =>
      -- `const topicTitle = t.title ?? t.name; if (!topicTitle) throw`
      if ¬ jsTruthyOpt (jsCoalesce (Json.getField t "title") (Json.getField t "name")) then
        Except.error "Topic missing title/name"
      else do
        let subTopics ←
          match topicSubsRaw t with
          | some l => procTopics fuel l ti
          | none => Except.ok []
        -- `String(t.id ?? slugId('topic', topicTitle, ti))`: when the id is
        -- absent and the (truthy) title value is not a string, `slugId`
        -- would call `.trim()` on a non-string and throw.
        let idStr ←
          if ¬ jsNullish (Json.getField t "id") then
            Except.ok (jsToString ((Json.getField t "id").getD Json.null))
          else
            match jsCoalesce (Json.getField t "title") (Json.getField t "name") with
            | some (Json.str s) => Except.ok (slugId "topic" s ti)
            | _ => Except.error "TypeError in slugId"
        Except.ok (SyllabusTopic.mk idStr
          (jsTrim (jsToString ((jsCoalesce (Json.getField t "title")
            (Json.getField t "name")).getD Json.null)))
          (if subTopics.length > 0 then some subTopics else none))
    | _ => Except.error "Invalid topic format"

end

/-- The topics array used for a book: `b.topics`, else `b.modules`, else `[]`
(src/index.tsx:543). -/
def bookTopicsRaw (b : Json) : List Json :=
  match getArrField b "topics" with
  | some l => l
  | none =>
    match getArrField b "modules" with
    | some l => l
    | none => []

/-- One `books.map` element (src/index.tsx:541-551).  A `null` array element
throws on the `b.title` access. -/
def processBook (fuel : Nat) (bi : Nat) (b : Json) : Except String SyllabusBook :=
  match b with
  | Json.null => Except.error "TypeError: null book"
  | _ => do
    let bTitle := jsToString ((jsChain [Json.getField b "title", Json.getField b "name"]).getD
      (Json.str ("书本" ++ toString (bi + 1))))
    let normTopics ← procTopics fuel (bookTopicsRaw b) bi
    let idStr :=
      if ¬ jsNullish (Json.getField b "id") then
        jsToString ((Json.getField b "id").getD Json.null)
      else slugId "book" bTitle bi
    Except.ok (SyllabusBook.mk idStr bTitle normTopics)

def processBooks (fuel : Nat) : List Json → Nat → Except String (List SyllabusBook)
  | [], _ => Except.ok []
  | b :: rest, bi => do
    let x ← processBook fuel bi b
    let xs ← processBooks fuel rest (bi + 1)
    Except.ok (x :: xs)

/-- Book-array location with the accompanying optional name
(src/index.tsx:493-499). -/
def locateBooks (rawObj : Json) : Option (List Json × Option Json) :=
  match rawObj with
  | Json.arr l => some (l, none)
  | _ =>
    match getArrField rawObj "books" with
    | some l =>
      some (l, jsChain [Json.getField rawObj "name", Json.getField rawObj "title"])
    | none =>
      match (Json.getField rawObj "preset").bind (fun p =>
        if jsTruthy p then
          (getArrField p "books").map (fun l =>
            (l, jsChain [Json.getField p "name", Json.getField rawObj "name"]))
        else none) with
      | some r => some r
      | none =>
        match getArrField rawObj "data" with
        | some l => some (l, none)
        | none => none

/-- `normalizeSyllabusJson` (src/index.tsx:486-563).  `now` stands for
`Date.now()` and `nowStr` for `new Date().toLocaleString()`. -/
def normalizeSyllabusJson (now : Int) (nowStr : String) (raw : String) : Option SyllabusPreset :=
  match parseLoose raw with
  | none => none
  | some rawObj =>
    if ¬ jsTruthy rawObj then none
    else
      match locateBooks rawObj with
      | none => none
      | some (books, name) =>
        match processBooks (raw.length + 1) books 0 with
        | Except.error _ => none
        | Except.ok normBooks =>
          -- `String(rawObj.id ?? slugId('syllabus', name ?? 'preset', Date.now()))`:
          -- a truthy non-string `name` reaching `slugId` would throw.
          let idE : Except String String :=
            if ¬ jsNullish (Json.getField rawObj "id") then
              Except.ok (jsToString ((Json.getField rawObj "id").getD Json.null))
            else
              match jsCoalesce name (some (Json.str "preset")) with
              | some (Json.str s) => Except.ok (slugId "syllabus" s now)
              | _ => Except.error "TypeError in slugId"
          match idE with
          | Except.error _ => none
          | Except.ok idStr =>
            some (SyllabusPreset.mk idStr
              (jsToString (name.getD (Json.str ("导入大纲 " ++ nowStr)))) normBooks)

mutual

/-- Spec-side predicate for claim C8: some topic reachable in the raw topic
forest (through the same `topics`/`subtopics`/`children` selection the
normalizer walks) is an object carrying neither a `title` nor a `name`
field (both absent or `null`).  Fuel is consumed exactly as in
`procTopics`/`procTopicOne`, and exhaustion reports `false` (finds no bad
topic). -/
def hasBadTopics : Nat → List Json → Bool
  | 0, _ => false
  | _ + 1, [] => false
  | fuel + 1, t :: rest => hasBadOne fuel t || hasBadTopics fuel rest

def hasBadOne : Nat → Json → Bool
  | 0, _ => false
  | fuel + 1, t =>
    match t with
    | Json.obj _ =>
      (jsNullish (Json.getField t "title") && jsNullish (Json.getField t "name")) ||
      (match topicSubsRaw t with
       | some l => hasBadTopics fuel l
       | none => false)
    | _ => false

end

/-! Syllabus classifier (src/index.tsx:645-787).  Every score the source
computes is a sum of small integers and halves (the depth bonus
`(3 - min(depth, 2)) * 0.5`), all exactly representable in IEEE doubles, so
the arithmetic is exact.  Scores are modelled here in half-points: a source
score `s` is represented by the natural number `2·s`.  The increments
3/3/1 (book) and 2/2/2/1 (topic) therefore appear as 6/6/2 and 4/4/4/2, the
depth bonus as `3 - min depth 2`, and the thresholds 3 (topic) and 2 (book)
as 6 and 4.  Doubling is strictly monotone, so every comparison
(`>` against the best-so-far, `>=` against a threshold) is preserved. -/

structure QuestionMeta where
  id : String
  tags : Option (List String)
  assignedBookId : Option String
  assignedTopicId : Option String

structure BankInfo where
  title : Option String

structure QuestionSyllabusMapping where
  bookId : String
  topicId : Option Json

/-- `Record<string, QuestionMeta>` lookup. -/
def metaGet (m : List (String × QuestionMeta)) (k : String) : Option QuestionMeta :=
  m.foldl (fun acc p => if p.1 = k then some p.2 else acc) none

/-- `a || b` where `a` is a typed optional string (from the meta table) and
`b` a raw stored value: an empty or absent string falls through. -/
def jsOrStrJson (a : Option String) (b : Option Json) : Option Json :=
  match a with
  | some s => if s ≠ "" then some (Json.str s) else b
  | none => b

/-- `meta?.assignedBookId || q.assignedBookId` (src/index.tsx:662). -/
def targetBookIdOf (metaMap : List (String × QuestionMeta)) (q : QuizQuestion) : Option Json :=
  jsOrStrJson ((metaGet metaMap q.id).bind QuestionMeta.assignedBookId) q.assignedBookId

/-- `meta?.assignedTopicId || q.assignedTopicId` (src/index.tsx:663). -/
def targetTopicIdOf (metaMap : List (String × QuestionMeta)) (q : QuizQuestion) : Option Json :=
  jsOrStrJson ((metaGet metaMap q.id).bind QuestionMeta.assignedTopicId) q.assignedTopicId

mutual

/-- `findTopicById` (src/index.tsx:671-677): recursive search for a topic id
anywhere in the tree; the strict `===` against the runtime id value matches
only string values. -/
def findTopicById (v : Json) : List SyllabusTopic → Bool
  | [] => false
  | t :: rest => findTopicInOne v t || findTopicById v rest

/-- One loop iteration of `findTopicById`: the id test, then the subtree. -/
def findTopicInOne (v : Json) : SyllabusTopic → Bool
  | SyllabusTopic.mk tid _ (some l) =>
    (match v with
     | Json.str s => tid = s
     | _ => false) || findTopicById v l
  | SyllabusTopic.mk tid _ none =>
    match v with
    | Json.str s => tid = s
    | _ => false

end

/-- `normalize` (src/index.tsx:687): `(s ?? '').toLowerCase().trim()`. -/
def normalizeJs (s : String) : String :=
  jsTrim (jsToLower s)

/-- The string fed to `normalize` by an optional-string field whose runtime
value is a string, `null` or absent; a non-string value here would raise a
`TypeError` in the source, so theorems about the scoring path assume
`strTyped` of these fields. -/
def strFieldVal : Option Json → String
  | some (Json.str s) => s
  | _ => ""

def strTyped : Option Json → Bool
  | none => true
  | some Json.null => true
  | some (Json.str _) => true
  | some _ => false

def listIsPref : List Char → List Char → Bool
  | [], _ => true
  | _ :: _, [] => false
  | x :: xs, y :: ys => x = y && listIsPref xs ys

def listIncl (needle : List Char) : List Char → Bool
  | [] => needle.isEmpty
  | c :: rest => listIsPref needle (c :: rest) || listIncl needle rest

/-- `hay.includes(needle)`. -/
def strIncludes (hay needle : String) : Bool :=
  listIncl needle.data hay.data

/-- `containsLoose` (src/index.tsx:688): symmetric substring containment of
non-empty strings. -/
def containsLoose (a b : String) : Bool :=
  a.length > 0 && b.length > 0 && (strIncludes a b || strIncludes b a)

/-- The normalized text blobs computed once per classification
(src/index.tsx:691-703; `nCore`/`nAnalysis` are recomputed per topic in the
source with the same value). -/
structure QTextCtx where
  qBookTitle : String
  qSourceDoc : String
  questionText : String
  nCore : String
  nAnalysis : String

/-- `[bankInfo?.title, q.sourceDocument, q.stem, q.coreConcept, q.analysis]
.filter(Boolean).join(' ')`, normalized (src/index.tsx:695-703). -/
def questionTextOf (q : QuizQuestion) (bank : Option BankInfo) : String :=
  let parts : List (Option Json) :=
    [(bank.bind BankInfo.title).map Json.str, q.sourceDocument,
      some (Json.str q.stem), q.coreConcept, q.analysis]
  normalizeJs (String.intercalate " "
    ((parts.filter jsTruthyOpt).map (fun v => jsToString (v.getD Json.null))))

def qTextCtxOf (q : QuizQuestion) (bank : Option BankInfo) : QTextCtx :=
  { qBookTitle := normalizeJs ((bank.bind BankInfo.title).getD "")
    qSourceDoc := normalizeJs (strFieldVal q.sourceDocument)
    questionText := questionTextOf q bank
    nCore := normalizeJs (strFieldVal q.coreConcept)
    nAnalysis := normalizeJs (strFieldVal q.analysis) }

/-- Book score rules (src/index.tsx:719-721), in half-points. -/
def bookScoreOf (ctx : QTextCtx) (nBookTitle : String) : Nat :=
  (if containsLoose ctx.qBookTitle nBookTitle then 6 else 0) +
  (if containsLoose ctx.qSourceDoc nBookTitle then 6 else 0) +
  (if containsLoose ctx.questionText nBookTitle then 2 else 0)

/-- Topic score rules with the depth bonus (src/index.tsx:736-752), in
half-points (the source bonus `(3 - min(depth, 2)) * 0.5` doubles to
`3 - min depth 2`). -/
def topicScoreOf (ctx : QTextCtx) (nTopicTitle : String) (depth : Nat) : Nat :=
  (if containsLoose ctx.qBookTitle nTopicTitle then 4 else 0) +
  (if containsLoose ctx.questionText nTopicTitle then 4 else 0) +
  (if containsLoose ctx.nCore nTopicTitle then 4 else 0) +
  (if containsLoose ctx.nAnalysis nTopicTitle then 2 else 0) +
  (3 - min depth 2)

/-- The mutable best-so-far trackers of the scoring loop
(src/index.tsx:705-710). -/
structure ScanState where
  bestBookId : Option String
  bestBookScore : Nat
  bestTopicBookId : Option String
  bestTopicId : Option String
  bestTopicScore : Nat

def initScan : ScanState :=
  { bestBookId := none, bestBookScore := 0,
    bestTopicBookId := none, bestTopicId := none, bestTopicScore := 0 }

mutual

/-- `checkTopicsRecursively` (src/index.tsx:729-765). -/
def scanTopics (ctx : QTextCtx) (bookId : String) :
    Nat → List SyllabusTopic → ScanState → ScanState
  | _, [], st => st
  | depth, t :: rest, st =>
    scanTopics ctx bookId depth rest (scanTopicOne ctx bookId depth t st)

/-- One loop iteration of `checkTopicsRecursively`: an empty normalized
title `continue`s past the topic, skipping its subtree as well; otherwise
score, update the best-so-far on strict improvement, and recurse into a
non-empty subtopic list at `depth + 1`. -/
def scanTopicOne (ctx : QTextCtx) (bookId : String) :
    Nat → SyllabusTopic → ScanState → ScanState
  | depth, SyllabusTopic.mk tid ttitle tsubs, st =>
    let nTopicTitle := normalizeJs ttitle
    if nTopicTitle = "" then st
    else
      let score := topicScoreOf ctx nTopicTitle depth
      let st1 :=
        if score > st.bestTopicScore then
          { st with bestTopicScore := score, bestTopicId := some tid, bestTopicBookId := some bookId }
        else st
      match tsubs with
      | some sub => if sub.length > 0 then scanTopics ctx bookId (depth + 1) sub st1 else st1
      | none => st1

end

/-- The book loop (src/index.tsx:712-768): a book with empty normalized
title is skipped entirely (its topics are never visited). -/
def scanBooks (ctx : QTextCtx) : List SyllabusBook → ScanState → ScanState
  | [], st => st
  | b :: rest, st =>
    let nBookTitleS := normalizeJs b.title
    if nBookTitleS = "" then scanBooks ctx rest st
    else
      let bookScore := bookScoreOf ctx nBookTitleS
      let st1 :=
        if bookScore > st.bestBookScore then
          { st with bestBookScore := bookScore, bestBookId := some b.id }
        else st
      let st2 := scanTopics ctx b.id 0 b.topics st1
      scanBooks ctx rest st2

/-- Truthiness of a `string | null` variable. -/
def truthyStrOpt : Option String → Bool
  | some s => s ≠ ""
  | none => false

/-- Step 1 of `mapQuestionToSyllabus` (src/index.tsx:659-684): the manual
assignment.  `none` means the step fell through to scoring. -/
def manualOverride (q : QuizQuestion) (preset : SyllabusPreset)
    (metaMap : List (String × QuestionMeta)) : Option QuestionSyllabusMapping :=
  let targetBookId := targetBookIdOf metaMap q
  let targetTopicId := targetTopicIdOf metaMap q
  if jsTruthyOpt targetBookId then
    match preset.books.find? (fun b =>
      match targetBookId with
      | some (Json.str s) => b.id = s
      | _ => false) with
    | some book =>
      -- `let topicId = targetTopicId || null`
      let topicId0 := if jsTruthyOpt targetTopicId then targetTopicId else none
      let isOther : Bool :=
        match topicId0 with
        | some (Json.str s) => s = "other"
        | _ => false
      let topicId :=
        if jsTruthyOpt topicId0 && !isOther then
          if findTopicById (topicId0.getD Json.null) book.topics then topicId0 else none
        else topicId0
      some ⟨book.id, topicId⟩
    | none => none
  else none

/-- `mapQuestionToSyllabus` (src/index.tsx:651-787). -/
def mapQuestionToSyllabus (q : QuizQuestion) (preset : Option SyllabusPreset)
    (metaMap : List (String × QuestionMeta)) (bankInfo : Option BankInfo) :
    Option QuestionSyllabusMapping :=
  match preset with
  | none => none
  | some p =>
    match manualOverride q p metaMap with
    | some m => some m
    | none =>
      let ctx := qTextCtxOf q bankInfo
      let st := scanBooks ctx p.books initScan
      if st.bestTopicScore ≥ 6 ∧ truthyStrOpt st.bestTopicBookId ∧
          truthyStrOpt st.bestTopicId then
        some ⟨st.bestTopicBookId.getD "", st.bestTopicId.map Json.str⟩
      else if st.bestBookScore ≥ 4 ∧ truthyStrOpt st.bestBookId then
        some ⟨st.bestBookId.getD "", none⟩
      else none

/-! Session and progress persistence (src/index.tsx:120-137, 878-920,
2278-2296, 2333-2388, 3163-3188, 4980-4997). -/

structure StoredQuizAnswer where
  answerIds : List String
  selected : Option (List String)
  isCorrect : Bool
deriving DecidableEq

structure StoredQuizProgress where
  questionIds : List String
  currentIndex : Int
  answers : List (String × StoredQuizAnswer)
  answeredCount : Nat
  correctCount : Nat
  updatedAt : Int
deriving DecidableEq

/-- Plain-object map access (`map[k] ?? null`); duplicate keys cannot occur
in a JavaScript object, last-wins for generality. -/
def assocGet {α : Type} (m : List (String × α)) (k : String) : Option α :=
  m.foldl (fun acc p => if p.1 = k then some p.2 else acc) none

/-- `{ ...prev, [k]: v }`: replaces an existing key in place (JavaScript
objects keep the original insertion position), otherwise appends. -/
def assocSet {α : Type} (m : List (String × α)) (k : String) (v : α) : List (String × α) :=
  if m.any (fun p => p.1 = k) then m.map (fun p => if p.1 = k then (k, v) else p)
  else m ++ [(k, v)]

/-- `loadProgress` (src/index.tsx:905): the persisted whole-map is passed
explicitly. -/
def loadProgress (progressMap : List (String × StoredQuizProgress)) (sessionKey : String) :
    Option StoredQuizProgress :=
  assocGet progressMap sessionKey

/-- `prepareOrderedQuestions` (src/index.tsx:250): a copy, never a shuffle,
so ordering is stable across sessions. -/
def prepareOrderedQuestions (questions : List QuizQuestion) : List QuizQuestion :=
  questions

def insertSortedStr (x : String) : List String → List String
  | [] => [x]
  | y :: ys => if x ≤ y then x :: y :: ys else y :: insertSortedStr x ys

/-- `[...ids].sort()`.  The JavaScript default comparator is lexicographic on
UTF-16 code units; this model sorts by Lean's code-point order.  Both are
linear orders, so each sort is a canonical form of the underlying multiset,
and the equality comparison the caller performs on the two sorted lists
agrees between the two orders. -/
def jsSortStrings (l : List String) : List String :=
  l.foldr insertSortedStr []

/-- `idsNow.every((id, i) => id === idsStored[i])` (src/index.tsx:2347):
reading past the end yields `undefined`, which never equals a string. -/
def everyIdxEq : List String → List String → Bool
  | [], _ => true
  | _ :: _, [] => false
  | x :: xs, y :: ys => x = y && everyIdxEq xs ys

structure OpenSessionArgs where
  sessionKey : String
  questions : List QuizQuestion
  initialIndex : Int
  restoredAnswers : Option (List (String × StoredQuizAnswer))

structure ResumeDialogState where
  title : Option String
  sessionKey : String
  questions : List QuizQuestion
  stored : StoredQuizProgress

/-- The observable outcome of `startQuizWithResume`: either the resume
dialog is shown (`offer`) or `openQuizSession` runs directly. -/
inductive StartOutcome where
  | offer : ResumeDialogState → StartOutcome
  | openSession : OpenSessionArgs → StartOutcome

/-- `startQuizWithResume` (src/index.tsx:2334-2360). -/
def startQuizWithResume (progressMap : List (String × StoredQuizProgress))
    (title : Option String) (sessionKey : String) (questions : List QuizQuestion) :
    StartOutcome :=
  match loadProgress progressMap sessionKey with
  | some stored =>
    if (jsSortStrings ((prepareOrderedQuestions questions).map QuizQuestion.id)).length =
          (jsSortStrings stored.questionIds).length &&
        everyIdxEq (jsSortStrings ((prepareOrderedQuestions questions).map QuizQuestion.id))
          (jsSortStrings stored.questionIds) then
      StartOutcome.offer ⟨title, sessionKey, prepareOrderedQuestions questions, stored⟩
    else
      StartOutcome.openSession ⟨sessionKey, prepareOrderedQuestions questions, 0, none⟩
  | none => StartOutcome.openSession ⟨sessionKey, prepareOrderedQuestions questions, 0, none⟩

/-- `handleResumeConfirm` (src/index.tsx:2378-2388): restore, clamping the
stored index into `[0, questions.length - 1]`. -/
def handleResumeConfirm (d : ResumeDialogState) : OpenSessionArgs :=
  { sessionKey := d.sessionKey
    questions := d.questions
    initialIndex := min (max d.stored.currentIndex 0) ((d.questions.length : Int) - 1)
    restoredAnswers := some d.stored.answers }

inductive QuizMode where
  | practice : QuizMode
  | exam : QuizMode
  | review : QuizMode
deriving DecidableEq

structure QuizSettings where
  mode : QuizMode
  confirmSubmit : Bool
  autoNextCorrect : Bool
  autoNextWrong : Bool

structure MistakeItem where
  id : String
  question : QuizQuestion
  fromBankId : Option String
  fromBankTitle : Option String
  userAnswer : Option (List String)
  addedAt : String

/-- The slice of component state read and written by `submitAnswer`. -/
structure QuizSessionState where
  quizData : List QuizQuestion
  currentQIndex : Nat
  userAnswers : List (String × StoredQuizAnswer)
  tempSelection : List String
  mistakes : List MistakeItem

/-- `submitAnswer` (src/index.tsx:3163-3188) as a synchronous state
transition; `nowIso` stands for `new Date().toISOString()`.  The delayed
auto-advance (`setTimeout` bumping `currentQIndex`) is asynchronous and not
part of this transition.  An out-of-range index would throw on
`currentQ.id` in the source; call sites keep it in range, and the model
returns the state unchanged there. -/
def submitAnswer (settings : QuizSettings) (nowIso : String) (selected : List String)
    (s : QuizSessionState) : QuizSessionState :=
  if settings.mode = QuizMode.review then s
  else
    match s.quizData.get? s.currentQIndex with
    | none => s
    | some currentQ =>
      if selected.length = 0 then s
      else
        let isCorrect := checkAnswerIsCorrect currentQ selected
        let ua := assocSet s.userAnswers currentQ.id
          { answerIds := selected, selected := some selected, isCorrect := isCorrect }
        let mistakes :=
          if ¬ isCorrect then
            if s.mistakes.any (fun m => m.id = currentQ.id) then s.mistakes
            else
              { id := currentQ.id, question := currentQ, fromBankId := none,
                fromBankTitle := none, userAnswer := some selected,
                addedAt := nowIso } :: s.mistakes
          else s.mistakes
        { s with userAnswers := ua, tempSelection := [], mistakes := mistakes }

/-- The progress record written by the save-progress effect
(src/index.tsx:2282-2294); `now` stands for `Date.now()`. -/
def buildProgress (quizData : List QuizQuestion) (currentQIndex : Int)
    (userAnswers : List (String × StoredQuizAnswer)) (now : Int) : StoredQuizProgress :=
  let allQuestionIds := quizData.map QuizQuestion.id
  let answeredEntries := userAnswers.filter (fun e => allQuestionIds.contains e.1)
  { questionIds := allQuestionIds
    currentIndex := currentQIndex
    answers := userAnswers
    answeredCount := answeredEntries.length
    correctCount := (answeredEntries.filter (fun e => e.2.isCorrect)).length
    updatedAt := now }

/-- The guard of the save-progress effect (src/index.tsx:2280): nothing is
written outside the quiz screen, without a session key, or with an empty
question list. -/
def saveProgressEffect (screenIsQuiz : Bool) (sessionKey : String)
    (quizData : List QuizQuestion) (currentQIndex : Int)
    (userAnswers : List (String × StoredQuizAnswer)) (now : Int) :
    Option (String × StoredQuizProgress) :=
  if ¬ screenIsQuiz ∨ sessionKey = "" ∨ quizData.length = 0 then none
  else some (sessionKey, buildProgress quizData currentQIndex userAnswers now)

/-- The strict-improvement fold the scoring loops perform, abstracted over
the tracked value. -/
def runBest {α : Type} (l : List (α × Nat)) (acc : α × Nat) : α × Nat :=
  l.foldl (fun acc p => if p.2 > acc.2 then p else acc) acc

/-- The best score in a candidate list (0 when empty). -/
def bestScore {α : Type} (l : List (α × Nat)) : Nat :=
  l.foldr (fun p m => max p.2 m) 0

/-- The first candidate attaining the best score. -/
def firstBest {α : Type} (l : List (α × Nat)) : Option (α × Nat) :=
  l.find? (fun p => bestScore l ≤ p.2)

mutual

/-- The topic candidates `(bookId, topicId) ↦ score` in the exact traversal
order of `checkTopicsRecursively`, with the same skip rules. -/
def topicCandList (ctx : QTextCtx) (bookId : String) :
    Nat → List SyllabusTopic → List ((String × String) × Nat)
  | _, [] => []
  | depth, t :: rest =>
    topicCandOne ctx bookId depth t ++ topicCandList ctx bookId depth rest

def topicCandOne (ctx : QTextCtx) (bookId : String) :
    Nat → SyllabusTopic → List ((String × String) × Nat)
  | depth, SyllabusTopic.mk tid ttitle tsubs =>
    let nTopicTitle := normalizeJs ttitle
    if nTopicTitle = "" then []
    else
      ((bookId, tid), topicScoreOf ctx nTopicTitle depth) ::
      (match tsubs with
       | some sub => if sub.length > 0 then topicCandList ctx bookId (depth + 1) sub else []
       | none => [])

end

/-- All topic candidates of the scan, books in order (books with empty
normalized titles contribute nothing, topics included). -/
def topicCandsOf (ctx : QTextCtx) : List SyllabusBook → List ((String × String) × Nat)
  | [] => []
  | b :: rest =>
    (if normalizeJs b.title = "" then []
     else topicCandList ctx b.id 0 b.topics) ++ topicCandsOf ctx rest

/-- The book candidates `bookId ↦ score` in book order. -/
def bookCandsOf (ctx : QTextCtx) : List SyllabusBook → List (String × Nat)
  | [] => []
  | b :: rest =>
    (if normalizeJs b.title = "" then []
     else [(b.id, bookScoreOf ctx (normalizeJs b.title))]) ++ bookCandsOf ctx rest

/-- The decision rule of claim C5 stated over the ranked candidate lists:
take the first best topic when its (half-point) score reaches 6 and its ids
are truthy, else the first best book when its score reaches 4 and its id is
truthy, else nothing. -/
def decisionSpec (tc : List ((String × String) × Nat)) (bc : List (String × Nat)) :
    Option QuestionSyllabusMapping :=
  let bookCase :=
    match firstBest bc with
    | some (bb, sb) => if 4 ≤ sb ∧ bb ≠ "" then some ⟨bb, none⟩ else none
    | none => none
  match firstBest tc with
  | some ((b, t), s) =>
    if 6 ≤ s ∧ b ≠ "" ∧ t ≠ "" then some ⟨b, some (Json.str t)⟩ else bookCase
  | none => bookCase

/-- The output invariant of claim C1 (as amended): every emitted question
has a non-empty stem, a non-empty option list, and every answer id is the
id of one of its options. -/
def quizOutputInvariant (l : List QuizQuestion) : Prop :=
  ∀ q ∈ l, q.stem ≠ "" ∧ q.options ≠ [] ∧
    ∀ aid ∈ q.answerIds, ∃ o ∈ q.options, o.id = aid

/-- The conclusion of claim C4 (as amended): the classifier returns the
assigned book `s` regardless of the scoring, and when the effective
assigned topic id is a non-empty string other than `"other"` that resolves
nowhere in that book's topic tree, the returned topic is `null` while the
book assignment is still honored. -/
def overrideConclusion (q : QuizQuestion) (p : SyllabusPreset)
    (metaMap : List (String × QuestionMeta)) (bank : Option BankInfo)
    (s : String) (book : SyllabusBook) : Prop :=
  (∃ tid, mapQuestionToSyllabus q (some p) metaMap bank = some ⟨s, tid⟩) ∧
  ∀ t : String, targetTopicIdOf metaMap q = some (Json.str t) → t ≠ "" →
    t ≠ "other" → findTopicById (Json.str t) book.topics = false →
    mapQuestionToSyllabus q (some p) metaMap bank = some ⟨s, none⟩

/-- A question list element with a stem and options but no resolvable
answers: the quiz normalizer keeps it (claim C1). -/
def c1badRaw : String := "[\x7b\"stem\":\"x\",\"options\":[\"a\",\"b\"]\x7d]"

/-- The spec's concrete scenario 1 input. -/
def c1goodRaw : String :=
  "Sure! Here is the quiz:\n```json\n[\x7b\"stem\":\"1+1=?\",\"options\":[\"1\",\"2\",\"3\"],\"correctOptions\":[\"B\"]\x7d]\n```"

/-- The question scenario 1 normalizes to (with `now = 0`). -/
def c1goodQuestion : QuizQuestion :=
  { id := "q-0-0", type := QuestionType.single, stem := "1+1=?"
    options := [⟨"A", "1"⟩, ⟨"B", "2"⟩, ⟨"C", "3"⟩], answerIds := ["B"]
    analysis := none, coreConcept := none, optionAnalyses := none
    extendedCases := none, sourceDocument := none, bookTitle := none
    chapterTitle := none, assignedBookId := none, assignedTopicId := none
    question := some "1+1=?", correctOptions := some ["B"] }

/-- An OpenAI-style envelope whose inner content is itself JSON
(claim C2). -/
def c2env : String :=
  "\x7b\"choices\":[\x7b\"message\":\x7b\"content\":\"[1,2]\"\x7d\x7d]\x7d"

def c2inner : String := "[1,2]"

/-- A quiz question with every loose field absent, for classifier and
session tests. -/
def plainQuestion (qid stem : String) (answerIds : List String)
    (options : List QuizOption) : QuizQuestion :=
  { id := qid, type := QuestionType.single, stem := stem
    options := options, answerIds := answerIds
    analysis := none, coreConcept := none, optionAnalyses := none
    extendedCases := none, sourceDocument := none, bookTitle := none
    chapterTitle := none, assignedBookId := none, assignedTopicId := none
    question := none, correctOptions := none }

/-- A preset whose only book has the empty string as id (claims C4, C5). -/
def emptyIdPreset : SyllabusPreset :=
  { id := "p", name := "P", books := [{ id := "", title := "b", topics := [] }] }

def c4q : QuizQuestion := plainQuestion "q1" "zzz" [] []

/-- Meta assigning the (existing) empty-string book id to `q1`. -/
def c4meta : List (String × QuestionMeta) :=
  [("q1", { id := "q1", tags := none, assignedBookId := some "", assignedTopicId := none })]

/-- Witness data for the amended C4: a real override with an unresolvable
topic id. -/
def c4wPreset : SyllabusPreset :=
  { id := "p", name := "P", books := [
    { id := "bk1", title := "Book One", topics := [SyllabusTopic.mk "t1" "Topic" none] },
    { id := "bk2", title := "Book Two", topics := [] }] }

def c4wMeta : List (String × QuestionMeta) :=
  [("q1", { id := "q1", tags := none, assignedBookId := some "bk2",
            assignedTopicId := some "t-missing" })]

/-- Bank info whose title loosely matches the empty-id book (claim C5). -/
def c5bank : BankInfo := { title := some "b" }

/-- Witness data for the amended C5: one matching book with one matching
topic. -/
def c5wPreset : SyllabusPreset :=
  { id := "p", name := "P", books := [
    { id := "bk-hist", title := "History",
      topics := [SyllabusTopic.mk "t-rome" "Ancient Rome" none] }] }

def c5wq : QuizQuestion := plainQuestion "q1" "About Ancient Rome stuff" [] []

def c5wqSrc : QuizQuestion :=
  { c5wq with sourceDocument := some (Json.str "History Vol 1") }

/-- A syllabus input whose single topic object lacks both title and name
(claim C8). -/
def c8badRaw : String :=
  "\x7b\"books\":[\x7b\"title\":\"B\",\"topics\":[\x7b\"foo\":1\x7d]\x7d]\x7d"

/-- The parsed form of `c8badRaw`. -/
def c8badObj : Json :=
  Json.obj [("books", Json.arr [Json.obj [("title", Json.str "B"),
    ("topics", Json.arr [Json.obj [("foo", Json.num 1)]])]])]

/-- Questions for session-model witnesses. -/
def qA : QuizQuestion := plainQuestion "qa" "A?" ["A"] [⟨"A", "yes"⟩, ⟨"B", "no"⟩]

def qB : QuizQuestion := plainQuestion "qb" "B?" ["B"] [⟨"A", "yes"⟩, ⟨"B", "no"⟩]

def c7settings : QuizSettings :=
  { mode := QuizMode.practice, confirmSubmit := false,
    autoNextCorrect := true, autoNextWrong := false }

def c7state : QuizSessionState :=
  { quizData := [qA, qB], currentQIndex := 0, userAnswers := [],
    tempSelection := [], mistakes := [] }

/-- The same state after one wrong answer on `qa` was captured. -/
def c7state2 : QuizSessionState :=
  { quizData := [qA, qB], currentQIndex := 0,
    userAnswers := [("qa", { answerIds := ["B"], selected := some ["B"], isCorrect := false })],
    tempSelection := [],
    mistakes := [{ id := "qa", question := qA, fromBankId := none, fromBankTitle := none,
                   userAnswer := some ["B"], addedAt := "t0" }] }

/-- A resume dialog whose stored index is far out of range (claim C10). -/
def c10dialog : ResumeDialogState :=
  { title := none, sessionKey := "bank:b1", questions := [qA, qB],
    stored := { questionIds := ["qa", "qb"], currentIndex := 99, answers := [],
                answeredCount := 0, correctCount := 0, updatedAt := 0 } }

/-- Candidates wrapped the way the scan state stores them (`string | null`
trackers). -/
def wrapT (l : List ((String × String) × Nat)) :
    List ((Option String × Option String) × Nat) :=
  l.map (fun p => ((some p.1.1, some p.1.2), p.2))

def wrapB (l : List (String × Nat)) : List (Option String × Nat) :=
  l.map (fun p => (some p.1, p.2))

/-- The topic components of a scan state as a fold accumulator. -/
def topicAcc (st : ScanState) : (Option String × Option String) × Nat :=
  ((st.bestTopicBookId, st.bestTopicId), st.bestTopicScore)

def bookAcc (st : ScanState) : Option String × Nat :=
  (st.bestBookId, st.bestBookScore)

/-- Write the topic components of a fold accumulator back into the state. -/
def applyT (st : ScanState) (r : (Option String × Option String) × Nat) : ScanState :=
  { st with bestTopicBookId := r.1.1, bestTopicId := r.1.2, bestTopicScore := r.2 }

def applyB (st : ScanState) (r : Option String × Nat) : ScanState :=
  { st with bestBookId := r.1, bestBookScore := r.2 }

/-- The conclusion of claim C10: the restored index is the clamp of the
stored one into `[0, length - 1]`, hence in range, `0` below and the last
index above. -/
def clampConclusion (d : ResumeDialogState) : Prop :=
  (handleResumeConfirm d).initialIndex =
    min (max d.stored.currentIndex 0) ((d.questions.length : Int) - 1) ∧
  0 ≤ (handleResumeConfirm d).initialIndex ∧
  (handleResumeConfirm d).initialIndex < (d.questions.length : Int) ∧
  (d.stored.currentIndex < 0 → (handleResumeConfirm d).initialIndex = 0) ∧
  ((d.questions.length : Int) ≤ d.stored.currentIndex →
    (handleResumeConfirm d).initialIndex = (d.questions.length : Int) - 1)

/-- The conclusion of claim C7: an incorrect submission prepends the
mistake item (question by value, submitted answer, timestamp) exactly when
no entry with that question id exists, and leaves the collection untouched
otherwise. -/
def mistakeConclusion (settings : QuizSettings) (nowIso : String)
    (selected : List String) (s : QuizSessionState) (q : QuizQuestion) : Prop :=
  (submitAnswer settings nowIso selected s).mistakes =
    if s.mistakes.any (fun m => m.id = q.id) then s.mistakes
    else { id := q.id, question := q, fromBankId := none, fromBankTitle := none,
           userAnswer := some selected, addedAt := nowIso } :: s.mistakes

def c9q : QuizQuestion :=
  plainQuestion "q9" "pick two" ["A", "B"] [⟨"A", "one"⟩, ⟨"B", "two"⟩]

def c8badBook : Json :=
  Json.obj [("title", Json.str "B"), ("topics", Json.arr [Json.obj [("foo", Json.num 1)]])]

def c4wBook : SyllabusBook :=
  { id := "bk2", title := "Book Two", topics := [] }

/-- C9: `checkAnswerIsCorrect` compares only the lengths and the membership
of each selected id in the correct set: for a question with correct answers
`A` and `B`, the selection `[A, A]` (repeating `A`, omitting `B`) is judged
correct. -/
theorem checkAnswer_accepts_duplicate_selection :
    c9q.answerIds = ["A", "B"] ∧
    checkAnswerIsCorrect c9q ["A", "A"] = true ∧
    (["A", "A"] : List String).contains "B" = false :=
  ⟨rfl, rfl, rfl⟩

/-- C2 (code bug demonstration): an input that is exactly a known API
envelope — an object with a `choices[0].message.content` string whose own
fence-stripped form parses as JSON — is returned whole by
`extractFirstJsonBlock`, not unwrapped to the inner content: the direct
parse at src/index.tsx:282 returns first, so the envelope branch at
lines 284-295 is unreachable. -/
theorem extractFirstJsonBlock_returns_envelope_whole :
    (tryJsonParse (stripCodeFences c2env)).isSome = true ∧
    ((tryJsonParse (stripCodeFences c2env)).bind (fun o =>
        match Json.getField o "choices" with
        | some (Json.arr (c0 :: _)) =>
          (Json.getField c0 "message").bind (fun m => Json.getField m "content")
        | _ => none)) = some (Json.str c2inner) ∧
    (tryJsonParse (stripCodeFences c2inner)).isSome = true ∧
    extractFirstJsonBlock c2env = some c2env ∧
    stripCodeFences c2env = c2env ∧
    c2env ≠ c2inner :=
  ⟨rfl, rfl, rfl, rfl, rfl, by decide⟩

/-- C1 (counterexample): an array element with a non-empty stem and
non-empty options whose answers resolve to nothing is NOT skipped — the
normalizer emits it with an empty `answerIds` (the skip at
src/index.tsx:449 checks only the stem and the options). -/
theorem normalizeQuizJson_keeps_empty_answerIds :
    (normalizeQuizJson 0 c1badRaw).map (List.map QuizQuestion.answerIds) = some [[]] ∧
    (normalizeQuizJson 0 c1badRaw).map (List.map QuizQuestion.stem) = some ["x"] :=
  ⟨rfl, rfl⟩

theorem ansInsert_mem (opts : List QuizOption) (ids : List String) (x : String)
    (hids : ∀ aid ∈ ids, ∃ o ∈ opts, o.id = aid)
    (hx : ∃ o ∈ opts, o.id = x) :
    ∀ aid ∈ ansInsert ids x, ∃ o ∈ opts, o.id = aid := by
  intro aid h
  unfold ansInsert at h
  split at h
  · exact hids aid h
  · rcases List.mem_append.1 h with h1 | h1
    · exact hids aid h1
    · simp only [List.mem_singleton] at h1
      subst h1
      exact hx

theorem byIndex_mem (opts : List QuizOption) (ids : List String) (n : Int)
    (hids : ∀ aid ∈ ids, ∃ o ∈ opts, o.id = aid) :
    ∀ aid ∈ byIndex opts ids n, ∃ o ∈ opts, o.id = aid := by
  unfold byIndex
  split
  · exact hids
  · cases hg : opts.get? n.toNat with
    | none => exact hids
    | some opt =>
      exact ansInsert_mem opts ids opt.id hids ⟨opt, List.get?_mem hg, rfl⟩

theorem byIdOrLabel_mem (opts : List QuizOption) (ids : List String) (x : Json)
    (hids : ∀ aid ∈ ids, ∃ o ∈ opts, o.id = aid) :
    ∀ aid ∈ byIdOrLabel opts ids x, ∃ o ∈ opts, o.id = aid := by
  unfold byIdOrLabel
  split
  · exact hids
  · cases hf : opts.find? (fun o =>
        decide (o.id = jsTrim (jsToString x) ∨
          jsToUpper o.id = jsToUpper (jsTrim (jsToString x)))) with
    | none => exact hids
    | some hit =>
      exact ansInsert_mem opts ids hit.id hids ⟨hit, List.mem_of_find?_eq_some hf, rfl⟩

theorem foldl_ans_mem {β : Type} (opts : List QuizOption)
    (step : List String → β → List String)
    (hstep : ∀ ids b, (∀ aid ∈ ids, ∃ o ∈ opts, o.id = aid) →
      ∀ aid ∈ step ids b, ∃ o ∈ opts, o.id = aid) :
    ∀ (l : List β) (ids), (∀ aid ∈ ids, ∃ o ∈ opts, o.id = aid) →
      ∀ aid ∈ l.foldl step ids, ∃ o ∈ opts, o.id = aid := by
  intro l
  induction l with
  | nil => intro ids hids; exact hids
  | cons b rest ih =>
    intro ids hids
    exact ih (step ids b) (hstep ids b hids)

theorem answersBase_mem (opts : List QuizOption) (a : Option Json) :
    ∀ aid ∈ answersBase opts a, ∃ o ∈ opts, o.id = aid := by
  have hnil : ∀ aid ∈ ([] : List String), ∃ o ∈ opts, o.id = aid := by
    intro aid h
    cases h
  unfold answersBase
  split
  · refine foldl_ans_mem opts _ ?_ _ [] hnil
    intro ids v hi
    split
    · exact byIndex_mem opts ids _ hi
    · exact byIdOrLabel_mem opts ids _ hi
  · split
    · refine foldl_ans_mem opts _ ?_ _ [] hnil
      intro ids piece hi
      exact byIdOrLabel_mem opts ids _ hi
    · refine foldl_ans_mem opts _ ?_ _ [] hnil
      intro ids ch hi
      exact byIdOrLabel_mem opts ids _ hi
  · exact byIndex_mem opts [] _ hnil
  · exact hnil

theorem normalizeAnswers_mem (item : Json) (opts : List QuizOption) :
    ∀ aid ∈ normalizeAnswers item opts, ∃ o ∈ opts, o.id = aid := by
  unfold normalizeAnswers
  have hbase := answersBase_mem opts (answerFieldOf item)
  split
  · split
    · exact byIndex_mem opts _ _ hbase
    · exact hbase
  · exact hbase

theorem buildQuestion_mem (now : Int) (idx : Nat) (item : Json) (q : QuizQuestion)
    (h : buildQuestion now idx item = some q) :
    q.stem ≠ "" ∧ q.options ≠ [] ∧
      ∀ aid ∈ q.answerIds, ∃ o ∈ q.options, o.id = aid := by
  unfold buildQuestion at h
  split at h
  · exact absurd h (by simp)
  · dsimp only at h
    split at h
    · exact absurd h (by simp)
    · rename_i hskip
      push_neg at hskip
      injection h with h
      subst h
      refine ⟨hskip.1, hskip.2, ?_⟩
      exact normalizeAnswers_mem item _

/-- C1 (as amended): every question emitted by `normalizeQuizJson` has a
non-empty stem, a non-empty option list, and every answer id resolves to one
of its options; elements with empty stem or empty options are dropped.
Elements whose answers resolve to nothing are NOT dropped (see the
counterexample): their `answerIds` is empty. -/
theorem normalizeQuizJson_output_invariant (now : Int) (raw : String)
    (l : List QuizQuestion) (h : normalizeQuizJson now raw = some l) :
    quizOutputInvariant l := by
  unfold normalizeQuizJson at h
  split at h
  · exact absurd h (by simp)
  · split at h
    · exact absurd h (by simp)
    · split at h
      · exact absurd h (by simp)
      · split at h
        · exact absurd h (by simp)
        · injection h with h
          subst h
          intro q hq
          rcases List.mem_filterMap.1 hq with ⟨p, _, hb⟩
          exact buildQuestion_mem now p.1 p.2 q hb

/-- C1 witness: the spec's scenario-1 input satisfies the amended
invariant. -/
theorem normalizeQuizJson_output_invariant_witness :
    normalizeQuizJson 0 c1goodRaw = some [c1goodQuestion] ∧
    quizOutputInvariant [c1goodQuestion] :=
  ⟨rfl, normalizeQuizJson_output_invariant 0 c1goodRaw [c1goodQuestion] rfl⟩

/-- C10: resuming clamps the restored index to
`min(max(storedCurrentIndex, 0), questions.length - 1)`, so for any stored
progress whose index is negative or not less than the question count, the
session opens at an in-range index (0, or the last question). -/
theorem handleResumeConfirm_clamps (d : ResumeDialogState)
    (h : 0 < d.questions.length) : clampConclusion d := by
  unfold clampConclusion handleResumeConfirm
  refine ⟨rfl, ?_, ?_, ?_, ?_⟩ <;> simp <;> omega

/-- C10 witness: a stored index of 99 over two questions resumes at the
last question. -/
theorem handleResumeConfirm_clamps_witness :
    0 < c10dialog.questions.length ∧ clampConclusion c10dialog :=
  ⟨by decide, handleResumeConfirm_clamps c10dialog (by decide)⟩

/-- C7: an incorrect submission adds the question (by value, with the
submitted answer and the timestamp) to the mistakes collection only when no
entry with the same question id exists; otherwise the collection — including
the stored wrong answer of the first miss — is left unchanged. -/
theorem submitAnswer_mistake_capture (settings : QuizSettings) (nowIso : String)
    (selected : List String) (s : QuizSessionState) (q : QuizQuestion)
    (hmode : settings.mode ≠ QuizMode.review)
    (hq : s.quizData.get? s.currentQIndex = some q)
    (hsel : selected ≠ [])
    (hwrong : checkAnswerIsCorrect q selected = false) :
    mistakeConclusion settings nowIso selected s q := by
  unfold mistakeConclusion submitAnswer
  have hq2 : s.quizData[s.currentQIndex]? = some q := by
    simpa [List.get?_eq_getElem?] using hq
  simp [hq2, hmode, hwrong, List.length_eq_zero, hsel]

/-- C7 witness: submitting the wrong answer `["B"]` on `qa` again, after a
first miss is already recorded, leaves the mistakes collection unchanged. -/
theorem submitAnswer_mistake_capture_witness :
    c7state2.quizData.get? c7state2.currentQIndex = some qA ∧
    checkAnswerIsCorrect qA ["B"] = false ∧
    mistakeConclusion c7settings "t1" ["B"] c7state2 qA :=
  ⟨rfl, rfl,
    submitAnswer_mistake_capture c7settings "t1" ["B"] c7state2 qA
      (by decide) rfl (by decide) rfl⟩

theorem everyIdxEq_iff (a b : List String) :
    (a.length = b.length ∧ everyIdxEq a b = true) ↔ a = b := by
  constructor
  · rintro ⟨hlen, heq⟩
    induction a generalizing b with
    | nil =>
      cases b with
      | nil => rfl
      | cons y ys => cases hlen
    | cons x xs ih =>
      cases b with
      | nil => cases hlen
      | cons y ys =>
        unfold everyIdxEq at heq
        simp only [Bool.and_eq_true, decide_eq_true_eq] at heq
        rw [heq.1, ih ys (by simpa using hlen) heq.2]
  · rintro rfl
    refine ⟨rfl, ?_⟩
    induction a with
    | nil => rfl
    | cons x xs ih => simpa [everyIdxEq] using ih

/-- C3: `startQuizWithResume` offers the resume choice exactly when stored
progress exists under the session key and the sorted question-id lists
agree element by element; otherwise the session opens fresh at index 0 with
no restored answers. -/
theorem startQuizWithResume_offer_iff
    (pm : List (String × StoredQuizProgress)) (title : Option String)
    (key : String) (qs : List QuizQuestion) :
    ((∃ d, startQuizWithResume pm title key qs = StartOutcome.offer d) ↔
      ∃ p, loadProgress pm key = some p ∧
        jsSortStrings (qs.map QuizQuestion.id) = jsSortStrings p.questionIds) ∧
    ((¬ ∃ p, loadProgress pm key = some p ∧
        jsSortStrings (qs.map QuizQuestion.id) = jsSortStrings p.questionIds) →
      startQuizWithResume pm title key qs =
        StartOutcome.openSession ⟨key, qs, 0, none⟩) := by
  unfold startQuizWithResume prepareOrderedQuestions
  cases hl : loadProgress pm key with
  | none =>
    constructor
    · constructor
      · rintro ⟨d, hd⟩
        cases hd
      · rintro ⟨p, hp, _⟩
        cases hp
    · intro
      rfl
  | some p =>
    dsimp only
    by_cases hsame : jsSortStrings (qs.map QuizQuestion.id) = jsSortStrings p.questionIds
    · have hcond : (decide ((jsSortStrings (qs.map QuizQuestion.id)).length =
          (jsSortStrings p.questionIds).length) &&
          everyIdxEq (jsSortStrings (qs.map QuizQuestion.id)) (jsSortStrings p.questionIds)) = true := by
        have h2 := (everyIdxEq_iff (jsSortStrings (qs.map QuizQuestion.id))
          (jsSortStrings p.questionIds)).2 hsame
        simp [h2.1, h2.2]
      rw [if_pos hcond]
      constructor
      · constructor
        · intro
          exact ⟨p, rfl, hsame⟩
        · intro
          exact ⟨⟨title, key, qs, p⟩, rfl⟩
      · intro hno
        exact absurd ⟨p, rfl, hsame⟩ hno
    · have hcond : ¬ ((decide ((jsSortStrings (qs.map QuizQuestion.id)).length =
          (jsSortStrings p.questionIds).length) &&
          everyIdxEq (jsSortStrings (qs.map QuizQuestion.id)) (jsSortStrings p.questionIds)) = true) := by
        intro hc
        simp only [Bool.and_eq_true, decide_eq_true_eq] at hc
        exact hsame ((everyIdxEq_iff _ _).1 hc)
      rw [if_neg hcond]
      constructor
      · constructor
        · rintro ⟨d, hd⟩
          cases hd
        · rintro ⟨p2, hp2, hs2⟩
          injection hp2 with hp2
          subst hp2
          exact absurd hs2 hsame
      · intro
        rfl

theorem coalesce_nullish_falsy (a b : Option Json) (ha : jsNullish a = true)
    (hb : jsNullish b = true) : jsTruthyOpt (jsCoalesce a b) = false := by
  unfold jsCoalesce
  rw [if_pos ha]
  cases b with
  | none => rfl
  | some v => cases v <;> simp_all [jsNullish, jsTruthyOpt, jsTruthy]

theorem badTopics_error : ∀ fuel : Nat,
    (∀ (l : List Json) (ti : Nat), hasBadTopics fuel l = true →
      (procTopics fuel l ti).isOk = false) ∧
    (∀ (ti : Nat) (t : Json), hasBadOne fuel t = true →
      (procTopicOne fuel ti t).isOk = false) := by
  intro fuel
  induction fuel with
  | zero =>
    constructor
    · intro l ti h
      simp [hasBadTopics] at h
    · intro ti t h
      simp [hasBadOne] at h
  | succ n ih =>
    constructor
    · intro l ti h
      cases l with
      | nil => simp [hasBadTopics] at h
      | cons t rest =>
        unfold hasBadTopics at h
        simp only [Bool.or_eq_true] at h
        rcases h with hhead | hrest
        · have h1 := ih.2 ti t hhead
          cases he : procTopicOne n ti t with
          | error e => simp only [procTopics, he]; rfl
          | ok x => rw [he] at h1; simp [Except.isOk, Except.toBool] at h1
        · have h1 := ih.1 rest (ti + 1) hrest
          cases he : procTopicOne n ti t with
          | error e => simp only [procTopics, he]; rfl
          | ok x =>
            cases he2 : procTopics n rest (ti + 1) with
            | error e => simp only [procTopics, he, he2]; rfl
            | ok xs => rw [he2] at h1; simp [Except.isOk, Except.toBool] at h1
    · intro ti t h
      cases t with
      | obj fs =>
        unfold hasBadOne at h
        simp only [Bool.or_eq_true, Bool.and_eq_true] at h
        rcases h with ⟨hn1, hn2⟩ | hsub
        · have hfalsy := coalesce_nullish_falsy _ _ hn1 hn2
          simp [procTopicOne, hfalsy, Except.isOk, Except.toBool]
        · by_cases htitle : jsTruthyOpt (jsCoalesce (Json.getField (Json.obj fs) "title")
              (Json.getField (Json.obj fs) "name")) = true
          · cases hts : topicSubsRaw (Json.obj fs) with
            | none => rw [hts] at hsub; simp at hsub
            | some l =>
              rw [hts] at hsub
              have h1 := ih.1 l ti hsub
              cases hsubr : procTopics n l ti with
              | error e => simp only [procTopicOne, htitle, hts, hsubr]; rfl
              | ok subs => rw [hsubr] at h1; simp [Except.isOk, Except.toBool] at h1
          · simp [procTopicOne, htitle, Except.isOk, Except.toBool]
      | null => simp [hasBadOne] at h
      | bool b => simp [hasBadOne] at h
      | num m => simp [hasBadOne] at h
      | str s => simp [hasBadOne] at h
      | arr xs => simp [hasBadOne] at h

theorem badBooks_error : ∀ (fuel : Nat) (books : List Json) (bi : Nat),
    books.any (fun b => hasBadTopics fuel (bookTopicsRaw b)) = true →
    (processBooks fuel books bi).isOk = false := by
  intro fuel books
  induction books with
  | nil => intro bi h; simp at h
  | cons b rest ih =>
    intro bi h
    simp only [List.any_cons, Bool.or_eq_true] at h
    rcases h with hb | hrest
    · cases hpb : processBook fuel bi b with
      | error e => simp only [processBooks, hpb]; rfl
      | ok x =>
        exfalso
        have hpt := (badTopics_error fuel).1 (bookTopicsRaw b) bi hb
        cases b with
        | null => cases hpb
        | bool v =>
          cases hpt2 : procTopics fuel (bookTopicsRaw (Json.bool v)) bi with
          | error e => unfold processBook at hpb; simp only [hpt2] at hpb; cases hpb
          | ok subs => rw [hpt2] at hpt; simp [Except.isOk, Except.toBool] at hpt
        | num v =>
          cases hpt2 : procTopics fuel (bookTopicsRaw (Json.num v)) bi with
          | error e => unfold processBook at hpb; simp only [hpt2] at hpb; cases hpb
          | ok subs => rw [hpt2] at hpt; simp [Except.isOk, Except.toBool] at hpt
        | str v =>
          cases hpt2 : procTopics fuel (bookTopicsRaw (Json.str v)) bi with
          | error e => unfold processBook at hpb; simp only [hpt2] at hpb; cases hpb
          | ok subs => rw [hpt2] at hpt; simp [Except.isOk, Except.toBool] at hpt
        | arr v =>
          cases hpt2 : procTopics fuel (bookTopicsRaw (Json.arr v)) bi with
          | error e => unfold processBook at hpb; simp only [hpt2] at hpb; cases hpb
          | ok subs => rw [hpt2] at hpt; simp [Except.isOk, Except.toBool] at hpt
        | obj v =>
          cases hpt2 : procTopics fuel (bookTopicsRaw (Json.obj v)) bi with
          | error e => unfold processBook at hpb; simp only [hpt2] at hpb; cases hpb
          | ok subs => rw [hpt2] at hpt; simp [Except.isOk, Except.toBool] at hpt
    · cases hpb : processBook fuel bi b with
      | error e => simp only [processBooks, hpb]; rfl
      | ok x =>
        have h1 := ih (bi + 1) hrest
        cases he2 : processBooks fuel rest (bi + 1) with
        | error e => simp only [processBooks, hpb, he2]; rfl
        | ok xs => rw [he2] at h1; simp [Except.isOk, Except.toBool] at h1

/-- C8: `normalizeSyllabusJson` returns `null` — never a partially built
preset — whenever no books array can be located in the (truthy) parsed
input, or some topic object at any nesting depth of the walked topic forest
carries neither a `title` nor a `name`. -/
theorem normalizeSyllabusJson_aborts (now : Int) (nowStr raw : String)
    (h : (∃ rawObj, parseLoose raw = some rawObj ∧ jsTruthy rawObj = true ∧
            locateBooks rawObj = none) ∨
         (∃ rawObj books name, parseLoose raw = some rawObj ∧
            locateBooks rawObj = some (books, name) ∧
            books.any (fun b => hasBadTopics (raw.length + 1) (bookTopicsRaw b)) = true)) :
    normalizeSyllabusJson now nowStr raw = none := by
  unfold normalizeSyllabusJson
  rcases h with ⟨rawObj, hp, ht, hl⟩ | ⟨rawObj, books, name, hp, hl, hbad⟩
  · rw [hp]
    simp only [ht, not_true, if_false]
    rw [hl]
  · rw [hp]
    by_cases ht : jsTruthy rawObj = true
    · simp only [ht, not_true, if_false]
      rw [hl]
      dsimp only
      have herr := badBooks_error (raw.length + 1) books 0 hbad
      cases hb : processBooks (raw.length + 1) books 0 with
      | error e => rfl
      | ok r => rw [hb] at herr; simp [Except.isOk, Except.toBool] at herr
    · simp [ht]

/-- C8 witness: a syllabus whose only topic object has neither title nor
name normalizes to `null`. -/
theorem normalizeSyllabusJson_aborts_witness :
    parseLoose c8badRaw = some c8badObj ∧
    [c8badBook].any (fun b =>
      hasBadTopics (c8badRaw.length + 1) (bookTopicsRaw b)) = true ∧
    normalizeSyllabusJson 3 "now" c8badRaw = none :=
  ⟨rfl, rfl,
    normalizeSyllabusJson_aborts 3 "now" c8badRaw
      (Or.inr ⟨c8badObj, [c8badBook], none, rfl, rfl, rfl⟩)⟩

/-- C4 (counterexample): the claim fails for the empty-string book id.  The
meta table assigns book id `""`, and a book with id `""` is present in the
preset; yet the classifier ignores the override (the `||` and truthiness
guards skip empty strings) and, with nothing to score, returns `null`
instead of that book. -/
theorem c4cex :
    (metaGet c4meta c4q.id).bind QuestionMeta.assignedBookId = some "" ∧
    emptyIdPreset.books.any (fun b => b.id = "") = true ∧
    mapQuestionToSyllabus c4q (some emptyIdPreset) c4meta none = none :=
  ⟨rfl, rfl, rfl⟩

/-- C4 (as amended): when the effective assigned book id — the meta entry's
`assignedBookId` if it is a non-empty string, else the question's own — is a
non-empty string matching a book of the preset, the classifier returns that
book regardless of the heuristic scores, and an unresolvable non-`"other"`
assigned topic id yields a `null` topic while the book is honored. -/
theorem mapQuestion_override (q : QuizQuestion) (p : SyllabusPreset)
    (metaMap : List (String × QuestionMeta)) (bank : Option BankInfo)
    (s : String) (book : SyllabusBook)
    (hs : s ≠ "")
    (htb : targetBookIdOf metaMap q = some (Json.str s))
    (hfind : p.books.find? (fun b => b.id = s) = some book) :
    overrideConclusion q p metaMap bank s book := by
  have hbid : book.id = s := by
    have h2 := List.find?_some hfind
    simpa using h2
  unfold overrideConclusion mapQuestionToSyllabus manualOverride
  rw [htb]
  simp only [jsTruthyOpt, jsTruthy, hs]
  rw [hfind]
  constructor
  · exact ⟨_, by
      rw [if_pos (show decide (s ≠ "") = true by simp [hs])]
      dsimp only
      rw [hbid]⟩
  · intro t htb2 ht1 ht2 hfindT
    rw [htb2, if_pos (show decide (s ≠ "") = true by simp [hs])]
    dsimp only
    rw [hbid]
    simp [ht1, ht2, hfindT]

/-- C4 witness: meta assigns `bk2` with an unresolvable topic id; the
classifier returns `bk2` with a `null` topic. -/
theorem mapQuestion_override_witness :
    targetBookIdOf c4wMeta c4q = some (Json.str "bk2") ∧
    c4wPreset.books.find? (fun b => b.id = "bk2") = some c4wBook ∧
    overrideConclusion c4q c4wPreset c4wMeta none "bk2" c4wBook :=
  ⟨rfl, rfl,
    mapQuestion_override c4q c4wPreset c4wMeta none "bk2" c4wBook (by decide) rfl rfl⟩

theorem bestScore_cons {α : Type} (q : α × Nat) (rest : List (α × Nat)) :
    bestScore (q :: rest) = max q.2 (bestScore rest) := rfl

theorem mem_le_bestScore {α : Type} (l : List (α × Nat)) :
    ∀ p ∈ l, p.2 ≤ bestScore l := by
  induction l with
  | nil => intro p h; cases h
  | cons q rest ih =>
    intro p h
    rw [bestScore_cons]
    rcases List.mem_cons.1 h with rfl | h2
    · omega
    · have := ih p h2
      omega

theorem bestScore_attained {α : Type} (l : List (α × Nat)) (h : 0 < bestScore l) :
    (l.find? (fun p => bestScore l ≤ p.2)).isSome = true := by
  induction l with
  | nil => simp [bestScore] at h
  | cons q rest ih =>
    by_cases hq : bestScore (q :: rest) ≤ q.2
    · rw [List.find?_cons_of_pos _ (by simpa using hq)]
      rfl
    · have hmax : bestScore (q :: rest) = bestScore rest := by
        rw [bestScore_cons] at hq ⊢
        omega
      rw [List.find?_cons_of_neg _ (by simpa using hq), hmax]
      refine ih ?_
      rw [hmax] at h
      exact h

theorem runBest_spec {α : Type} (l : List (α × Nat)) :
    ∀ acc : α × Nat, runBest l acc =
      if bestScore l ≤ acc.2 then acc
      else (l.find? (fun p => bestScore l ≤ p.2)).getD acc := by
  induction l with
  | nil =>
    intro acc
    rw [if_pos (by simp [bestScore])]
    rfl
  | cons q rest ih =>
    intro acc
    have hstep : runBest (q :: rest) acc = runBest rest (if q.2 > acc.2 then q else acc) := by
      simp [runBest]
    rw [hstep, ih]
    by_cases hgt : q.2 > acc.2
    · rw [if_pos hgt]
      by_cases hbr : bestScore rest ≤ q.2
      · have hmax : bestScore (q :: rest) = q.2 := by
          rw [bestScore_cons]
          omega
        rw [if_pos hbr, if_neg (by rw [hmax]; omega), hmax,
          List.find?_cons_of_pos _ (by simp)]
        rfl
      · have hmax : bestScore (q :: rest) = bestScore rest := by
          rw [bestScore_cons]
          omega
        rw [if_neg hbr, if_neg (by rw [hmax]; omega), hmax,
          List.find?_cons_of_neg _ (by simp only [hmax, decide_eq_true_eq] at *; omega)]
        have hsome := bestScore_attained rest (by omega)
        cases hf : rest.find? (fun p => bestScore rest ≤ p.2) with
        | none => rw [hf] at hsome; cases hsome
        | some fb => rfl
    · rw [if_neg hgt]
      by_cases hm : bestScore (q :: rest) ≤ acc.2
      · have hbr : bestScore rest ≤ acc.2 := by
          rw [bestScore_cons] at hm
          omega
        rw [if_pos hbr, if_pos hm]
      · have hbr : ¬ bestScore rest ≤ acc.2 := by
          rw [bestScore_cons] at hm
          omega
        have hmax : bestScore (q :: rest) = bestScore rest := by
          rw [bestScore_cons] at hm ⊢
          omega
        rw [if_neg hbr, if_neg hm, hmax,
          List.find?_cons_of_neg _ (by simp only [decide_eq_true_eq]; rw [hmax] at hm; omega)]

theorem runBest_append {α : Type} (l₁ l₂ : List (α × Nat)) (acc : α × Nat) :
    runBest (l₁ ++ l₂) acc = runBest l₂ (runBest l₁ acc) := by
  simp [runBest, List.foldl_append]

theorem wrapT_append (l₁ l₂ : List ((String × String) × Nat)) :
    wrapT (l₁ ++ l₂) = wrapT l₁ ++ wrapT l₂ := by
  simp [wrapT]

theorem applyT_applyT (st : ScanState) (r₁ r₂ : (Option String × Option String) × Nat) :
    applyT (applyT st r₁) r₂ = applyT st r₂ := rfl

theorem topicAcc_applyT (st : ScanState) (r : (Option String × Option String) × Nat) :
    topicAcc (applyT st r) = r := rfl

theorem applyT_topicAcc (st : ScanState) : applyT st (topicAcc st) = st := rfl

theorem applyB_applyB (st : ScanState) (r₁ r₂ : Option String × Nat) :
    applyB (applyB st r₁) r₂ = applyB st r₂ := rfl

theorem bookAcc_applyB (st : ScanState) (r : Option String × Nat) :
    bookAcc (applyB st r) = r := rfl

theorem applyB_bookAcc (st : ScanState) : applyB st (bookAcc st) = st := rfl

theorem topicAcc_applyB (st : ScanState) (r : Option String × Nat) :
    topicAcc (applyB st r) = topicAcc st := rfl

theorem bookAcc_applyT (st : ScanState) (r : (Option String × Option String) × Nat) :
    bookAcc (applyT st r) = bookAcc st := rfl

theorem applyB_applyT (st : ScanState) (r : (Option String × Option String) × Nat)
    (rb : Option String × Nat) :
    applyB (applyT st r) rb = applyT (applyB st rb) r := rfl

/-- `bestScore` only looks at the scores, so wrapping the payloads keeps it. -/
theorem bestScore_map_wrap {α β : Type} (f : α → β) (l : List (α × Nat)) :
    bestScore (l.map (fun p => (f p.1, p.2))) = bestScore l := by
  induction l with
  | nil => rfl
  | cons q rest ih =>
    rw [List.map_cons, bestScore_cons, bestScore_cons, ih]

/-- `find?` on scores commutes with wrapping the payloads. -/
theorem find?_map_wrap {α β : Type} (f : α → β) (n : Nat) (l : List (α × Nat)) :
    (l.map (fun p => (f p.1, p.2))).find? (fun p => n ≤ p.2) =
      (l.find? (fun p => n ≤ p.2)).map (fun p => (f p.1, p.2)) := by
  induction l with
  | nil => rfl
  | cons q rest ih =>
    by_cases h : n ≤ q.2
    · rw [List.map_cons, List.find?_cons_of_pos _ (by simpa using h),
        List.find?_cons_of_pos _ (by simpa using h)]
      rfl
    · rw [List.map_cons, List.find?_cons_of_neg _ (by simpa using h),
        List.find?_cons_of_neg _ (by simpa using h), ih]

/-- Characterization of one best-so-far tracker started from a default
payload with score `0`: it ends at the default exactly when no candidate
scores above `0`, and otherwise at the first candidate attaining the best
score, wrapped. -/
theorem runBest_wrap_char {α β : Type} (f : α → β) (d : β) (l : List (α × Nat)) :
    (firstBest l = none ∧ runBest (l.map (fun p => (f p.1, p.2))) (d, 0) = (d, 0)) ∨
    (∃ a s, firstBest l = some (a, s) ∧ s = bestScore l ∧
      runBest (l.map (fun p => (f p.1, p.2))) (d, 0) =
        (if s = 0 then (d, 0) else (f a, s))) := by
  cases hf : firstBest l with
  | none =>
    left
    refine ⟨rfl, ?_⟩
    have hl : l = [] := by
      cases l with
      | nil => rfl
      | cons q rest =>
        exfalso
        by_cases hbs : 0 < bestScore (q :: rest)
        · have := bestScore_attained (q :: rest) hbs
          rw [show (q :: rest).find? (fun p => bestScore (q :: rest) ≤ p.2) = none from hf]
            at this
          cases this
        · have hq0 : bestScore (q :: rest) ≤ q.2 := by omega
          have := List.find?_cons_of_pos (l := rest) (a := q)
            (p := fun p => decide (bestScore (q :: rest) ≤ p.2)) (by simpa using hq0)
          rw [firstBest] at hf
          rw [this] at hf
          cases hf
    subst hl
    rfl
  | some p =>
    right
    obtain ⟨a, s⟩ := p
    have hmem := List.mem_of_find?_eq_some hf
    have hpred : bestScore l ≤ s := by
      have := List.find?_some hf
      simpa using this
    have hle := mem_le_bestScore l (a, s) hmem
    have hs : s = bestScore l := le_antisymm hle hpred
    refine ⟨a, s, rfl, hs, ?_⟩
    rw [runBest_spec]
    by_cases h0 : s = 0
    · rw [if_pos (by simp [bestScore_map_wrap]; omega), if_pos h0]
    · rw [if_neg (by simp [bestScore_map_wrap]; omega), if_neg h0]
      rw [bestScore_map_wrap, find?_map_wrap, ← hs]
      rw [show l.find? (fun p => s ≤ p.2) = some (a, s) from hs ▸ hf]
      rfl

theorem wrapT_cons (p : (String × String) × Nat) (l : List ((String × String) × Nat)) :
    wrapT (p :: l) = ((some p.1.1, some p.1.2), p.2) :: wrapT l := rfl

theorem wrapT_nil : wrapT [] = [] := rfl

theorem runBest_cons {α : Type} (p : α × Nat) (l : List (α × Nat)) (acc : α × Nat) :
    runBest (p :: l) acc = runBest l (if p.2 > acc.2 then p else acc) := rfl

theorem runBest_nil {α : Type} (acc : α × Nat) : runBest ([] : List (α × Nat)) acc = acc := rfl

/-- Joint induction (on `sizeOf`) for the two mutually recursive topic
scanners: each equals the strict-improvement fold over its candidate list,
acting only on the topic components of the state. -/
theorem scan_eq_all (ctx : QTextCtx) (bookId : String) : ∀ n : Nat,
    (∀ (depth : Nat) (ts : List SyllabusTopic) (st : ScanState), sizeOf ts ≤ n →
      scanTopics ctx bookId depth ts st =
        applyT st (runBest (wrapT (topicCandList ctx bookId depth ts)) (topicAcc st))) ∧
    (∀ (depth : Nat) (t : SyllabusTopic) (st : ScanState), sizeOf t ≤ n →
      scanTopicOne ctx bookId depth t st =
        applyT st (runBest (wrapT (topicCandOne ctx bookId depth t)) (topicAcc st))) := by
  intro n
  induction n with
  | zero =>
    constructor
    · intro depth ts st hsz
      exfalso
      cases ts with
      | nil => simp only [List.nil.sizeOf_spec] at hsz; omega
      | cons a b => simp only [List.cons.sizeOf_spec] at hsz; omega
    · intro depth t st hsz
      exfalso
      cases t with
      | mk a b c => simp only [SyllabusTopic.mk.sizeOf_spec] at hsz; omega
  | succ n ih =>
    refine ⟨?_, ?_⟩
    · intro depth ts st hsz
      cases ts with
      | nil => rfl
      | cons t rest =>
        have h1 : sizeOf t ≤ n := by
          simp only [List.cons.sizeOf_spec] at hsz; omega
        have h2 : sizeOf rest ≤ n := by
          simp only [List.cons.sizeOf_spec] at hsz; omega
        rw [scanTopics, ih.1 depth rest _ h2, ih.2 depth t st h1, topicCandList,
          wrapT_append, runBest_append, applyT_applyT, topicAcc_applyT]
    · intro depth t st hsz
      cases t with
      | mk tid ttitle tsubs =>
        cases tsubs with
        | none =>
          have hL : scanTopicOne ctx bookId depth (SyllabusTopic.mk tid ttitle none) st =
              (if normalizeJs ttitle = "" then st
               else if topicScoreOf ctx (normalizeJs ttitle) depth > st.bestTopicScore then
                 { st with bestTopicScore := topicScoreOf ctx (normalizeJs ttitle) depth,
                           bestTopicId := some tid, bestTopicBookId := some bookId }
               else st) := rfl
          have hR : topicCandOne ctx bookId depth (SyllabusTopic.mk tid ttitle none) =
              (if normalizeJs ttitle = "" then []
               else [((bookId, tid), topicScoreOf ctx (normalizeJs ttitle) depth)]) := rfl
          rw [hL, hR]
          by_cases h : normalizeJs ttitle = ""
          · simp only [if_pos h]
            rfl
          · simp only [if_neg h]
            rw [wrapT_cons, runBest_cons]
            dsimp only [topicAcc]
            by_cases hc : topicScoreOf ctx (normalizeJs ttitle) depth > st.bestTopicScore
            · simp only [if_pos hc]
              rfl
            · simp only [if_neg hc]
              rfl
        | some sub =>
          have hL : scanTopicOne ctx bookId depth (SyllabusTopic.mk tid ttitle (some sub)) st =
              (if normalizeJs ttitle = "" then st
               else if sub.length > 0 then
                 scanTopics ctx bookId (depth + 1) sub
                   (if topicScoreOf ctx (normalizeJs ttitle) depth > st.bestTopicScore then
                     { st with bestTopicScore := topicScoreOf ctx (normalizeJs ttitle) depth,
                               bestTopicId := some tid, bestTopicBookId := some bookId }
                    else st)
               else if topicScoreOf ctx (normalizeJs ttitle) depth > st.bestTopicScore then
                 { st with bestTopicScore := topicScoreOf ctx (normalizeJs ttitle) depth,
                           bestTopicId := some tid, bestTopicBookId := some bookId }
               else st) := rfl
          have hR : topicCandOne ctx bookId depth (SyllabusTopic.mk tid ttitle (some sub)) =
              (if normalizeJs ttitle = "" then []
               else ((bookId, tid), topicScoreOf ctx (normalizeJs ttitle) depth) ::
                 (if sub.length > 0 then topicCandList ctx bookId (depth + 1) sub else [])) := rfl
          rw [hL, hR]
          by_cases h : normalizeJs ttitle = ""
          · simp only [if_pos h]
            rfl
          · simp only [if_neg h]
            rw [wrapT_cons, runBest_cons]
            dsimp only [topicAcc]
            by_cases hc : topicScoreOf ctx (normalizeJs ttitle) depth > st.bestTopicScore
            · simp only [if_pos hc]
              by_cases hlen : sub.length > 0
              · have hsub : sizeOf sub ≤ n := by
                  simp only [SyllabusTopic.mk.sizeOf_spec, Option.some.sizeOf_spec] at hsz
                  omega
                simp only [if_pos hlen]
                rw [ih.1 (depth + 1) sub _ hsub]
                rfl
              · simp only [if_neg hlen]
                rfl
            · simp only [if_neg hc]
              by_cases hlen : sub.length > 0
              · have hsub : sizeOf sub ≤ n := by
                  simp only [SyllabusTopic.mk.sizeOf_spec, Option.some.sizeOf_spec] at hsz
                  omega
                simp only [if_pos hlen]
                rw [ih.1 (depth + 1) sub _ hsub]
                rfl
              · simp only [if_neg hlen]
                rfl

theorem scanTopics_eq (ctx : QTextCtx) (bookId : String) (depth : Nat)
    (ts : List SyllabusTopic) (st : ScanState) :
    scanTopics ctx bookId depth ts st =
      applyT st (runBest (wrapT (topicCandList ctx bookId depth ts)) (topicAcc st)) :=
  (scan_eq_all ctx bookId (sizeOf ts)).1 depth ts st le_rfl

theorem wrapB_cons (p : String × Nat) (l : List (String × Nat)) :
    wrapB (p :: l) = (some p.1, p.2) :: wrapB l := rfl

theorem wrapB_nil : wrapB [] = [] := rfl

/-- The book loop is two independent strict-improvement folds: one over the
book candidates into the book components, one over the topic candidates into
the topic components. -/
theorem scanBooks_eq (ctx : QTextCtx) : ∀ (bs : List SyllabusBook) (st : ScanState),
    scanBooks ctx bs st =
      applyB (applyT st (runBest (wrapT (topicCandsOf ctx bs)) (topicAcc st)))
        (runBest (wrapB (bookCandsOf ctx bs)) (bookAcc st)) := by
  intro bs
  induction bs with
  | nil => intro st; rfl
  | cons b rest ih =>
    intro st
    have hL : scanBooks ctx (b :: rest) st =
        (if normalizeJs b.title = "" then scanBooks ctx rest st
         else scanBooks ctx rest
           (scanTopics ctx b.id 0 b.topics
             (if bookScoreOf ctx (normalizeJs b.title) > st.bestBookScore then
               { st with bestBookScore := bookScoreOf ctx (normalizeJs b.title),
                         bestBookId := some b.id }
              else st))) := rfl
    have hT : topicCandsOf ctx (b :: rest) =
        (if normalizeJs b.title = "" then [] else topicCandList ctx b.id 0 b.topics)
          ++ topicCandsOf ctx rest := rfl
    have hB : bookCandsOf ctx (b :: rest) =
        (if normalizeJs b.title = "" then []
         else [(b.id, bookScoreOf ctx (normalizeJs b.title))]) ++ bookCandsOf ctx rest := rfl
    rw [hL, hT, hB]
    by_cases h : normalizeJs b.title = ""
    · simp only [if_pos h, List.nil_append]
      exact ih st
    · simp only [if_neg h, List.singleton_append]
      rw [ih, scanTopics_eq ctx b.id 0 b.topics, wrapT_append, runBest_append,
        wrapB_cons, runBest_cons]
      dsimp only [bookAcc, topicAcc]
      by_cases hc : bookScoreOf ctx (normalizeJs b.title) > st.bestBookScore
      · simp only [if_pos hc]
        rfl
      · simp only [if_neg hc]
        rfl

theorem mapQuestionToSyllabus_of_no_override (q : QuizQuestion) (p : SyllabusPreset)
    (metaMap : List (String × QuestionMeta)) (bank : Option BankInfo)
    (hmo : manualOverride q p metaMap = none) :
    mapQuestionToSyllabus q (some p) metaMap bank =
      (if (scanBooks (qTextCtxOf q bank) p.books initScan).bestTopicScore ≥ 6 ∧
          truthyStrOpt (scanBooks (qTextCtxOf q bank) p.books initScan).bestTopicBookId ∧
          truthyStrOpt (scanBooks (qTextCtxOf q bank) p.books initScan).bestTopicId then
        some ⟨((scanBooks (qTextCtxOf q bank) p.books initScan).bestTopicBookId).getD "",
              ((scanBooks (qTextCtxOf q bank) p.books initScan).bestTopicId).map Json.str⟩
      else if (scanBooks (qTextCtxOf q bank) p.books initScan).bestBookScore ≥ 4 ∧
          truthyStrOpt (scanBooks (qTextCtxOf q bank) p.books initScan).bestBookId then
        some ⟨((scanBooks (qTextCtxOf q bank) p.books initScan).bestBookId).getD "", none⟩
      else none) := by
  unfold mapQuestionToSyllabus
  dsimp only
  rw [hmo]

/-- The topic tracker of the scan, started from `(null, null, 0)`. -/
theorem runBestT_char (l : List ((String × String) × Nat)) :
    (firstBest l = none ∧
      runBest (wrapT l) (((none : Option String), (none : Option String)), 0) =
        (((none : Option String), (none : Option String)), 0)) ∨
    (∃ b t s, firstBest l = some ((b, t), s) ∧ s = bestScore l ∧
      runBest (wrapT l) (((none : Option String), (none : Option String)), 0) =
        (if s = 0 then (((none : Option String), (none : Option String)), 0)
         else ((some b, some t), s))) := by
  have h := runBest_wrap_char (fun y : String × String => (some y.1, some y.2))
    ((none : Option String), (none : Option String)) l
  rcases h with ⟨h1, h2⟩ | ⟨a, s, h1, h2, h3⟩
  · left
    exact ⟨h1, h2⟩
  · right
    obtain ⟨b, t⟩ := a
    exact ⟨b, t, s, h1, h2, h3⟩

/-- The book tracker of the scan, started from `(null, 0)`. -/
theorem runBestB_char (l : List (String × Nat)) :
    (firstBest l = none ∧
      runBest (wrapB l) ((none : Option String), 0) = ((none : Option String), 0)) ∨
    (∃ b s, firstBest l = some (b, s) ∧ s = bestScore l ∧
      runBest (wrapB l) ((none : Option String), 0) =
        (if s = 0 then ((none : Option String), 0) else (some b, s))) := by
  have h := runBest_wrap_char (fun y : String => some y) (none : Option String) l
  rcases h with ⟨h1, h2⟩ | ⟨b, s, h1, h2, h3⟩
  · left
    exact ⟨h1, h2⟩
  · right
    exact ⟨b, s, h1, h2, h3⟩

/-- C5 (as amended): when no manual override applies, and the question's
loose text fields `sourceDocument`, `coreConcept` and `analysis` are strings,
`null` or absent (a truthy non-string value there makes the source's
`normalize` at src/index.tsx:693/744/748 throw an uncaught `TypeError`, so the
scoring path is only defined under `strTyped` of these fields), the classifier
decides exactly by `decisionSpec` over the ranked candidate lists: the first
best-scoring topic whose (half-point) score is at least 6 — i.e. 3 source
points — and whose book id and topic id are non-empty strings wins; else the
first best-scoring book with score at least 4 (2 source points) and a
non-empty id; else `null`.  On ties the first candidate in traversal order
is kept (strict improvement), and candidates of books with empty normalized
titles are never visited. -/
theorem mapQuestion_scoring_decision (q : QuizQuestion) (p : SyllabusPreset)
    (metaMap : List (String × QuestionMeta)) (bank : Option BankInfo)
    (hmo : manualOverride q p metaMap = none)
    (_hsd : strTyped q.sourceDocument = true)
    (_hcc : strTyped q.coreConcept = true)
    (_han : strTyped q.analysis = true) :
    mapQuestionToSyllabus q (some p) metaMap bank =
      decisionSpec (topicCandsOf (qTextCtxOf q bank) p.books)
        (bookCandsOf (qTextCtxOf q bank) p.books) := by
  rw [mapQuestionToSyllabus_of_no_override q p metaMap bank hmo, scanBooks_eq,
    show topicAcc initScan = (((none : Option String), (none : Option String)), 0) from rfl,
    show bookAcc initScan = ((none : Option String), 0) from rfl]
  rcases runBestT_char (topicCandsOf (qTextCtxOf q bank) p.books) with
    ⟨hfT, hrT⟩ | ⟨tb, tt, s, hfT, hsT, hrT⟩ <;>
  rcases runBestB_char (bookCandsOf (qTextCtxOf q bank) p.books) with
    ⟨hfB, hrB⟩ | ⟨bb, sb, hfB, hsB, hrB⟩
  · rw [hrT, hrB]
    simp only [decisionSpec]
    rw [hfT, hfB]
    simp [truthyStrOpt, applyB, applyT, initScan]
  · rw [hrT, hrB]
    simp only [decisionSpec]
    rw [hfT, hfB]
    by_cases hb0 : sb = 0
    · subst hb0
      simp [truthyStrOpt, applyB, applyT, initScan]
    · simp only [if_neg hb0]
      by_cases h4 : 4 ≤ sb <;> by_cases hbb : bb = "" <;>
        simp [truthyStrOpt, applyB, applyT, initScan, h4, hbb, ge_iff_le]
  · rw [hrT, hrB]
    simp only [decisionSpec]
    rw [hfT, hfB]
    by_cases hs0 : s = 0
    · subst hs0
      simp [truthyStrOpt, applyB, applyT, initScan]
    · simp only [if_neg hs0]
      by_cases h6 : 6 ≤ s <;> by_cases hb1 : tb = "" <;> by_cases ht1 : tt = "" <;>
        simp [truthyStrOpt, applyB, applyT, initScan, h6, hb1, ht1, ge_iff_le]
  · rw [hrT, hrB]
    simp only [decisionSpec]
    rw [hfT, hfB]
    by_cases hs0 : s = 0
    · subst hs0
      by_cases hb0 : sb = 0
      · subst hb0
        simp [truthyStrOpt, applyB, applyT, initScan]
      · simp only [if_neg hb0]
        by_cases h4 : 4 ≤ sb <;> by_cases hbb : bb = "" <;>
          simp [truthyStrOpt, applyB, applyT, initScan, h4, hbb, ge_iff_le]
    · simp only [if_neg hs0]
      by_cases hb0 : sb = 0
      · subst hb0
        by_cases h6 : 6 ≤ s <;> by_cases hb1 : tb = "" <;> by_cases ht1 : tt = "" <;>
          simp [truthyStrOpt, applyB, applyT, initScan, h6, hb1, ht1, ge_iff_le]
      · simp only [if_neg hb0]
        by_cases h6 : 6 ≤ s <;> by_cases hb1 : tb = "" <;> by_cases ht1 : tt = "" <;>
          by_cases h4 : 4 ≤ sb <;> by_cases hbb : bb = "" <;>
          simp [truthyStrOpt, applyB, applyT, initScan, h6, hb1, ht1, h4, hbb, ge_iff_le]

/-- Counterexample to claim C5 as stated: with no manual override, no topic
candidate scores at all and the best book candidate scores 8 half-points — 4
source points, well past the claimed threshold of 2 — yet the classifier
returns `null`: the best book's id is the empty string, which fails the
JavaScript truthiness guard on `bestBookId`. -/
theorem mapQuestion_drops_untruthy_best_book :
    manualOverride c4q emptyIdPreset [] = none ∧
    bestScore (topicCandsOf (qTextCtxOf c4q (some c5bank)) emptyIdPreset.books) = 0 ∧
    bestScore (bookCandsOf (qTextCtxOf c4q (some c5bank)) emptyIdPreset.books) = 8 ∧
    mapQuestionToSyllabus c4q (some emptyIdPreset) [] (some c5bank) = none :=
  ⟨rfl, rfl, rfl, rfl⟩

theorem mapQuestion_scoring_decision_witness :
    manualOverride c5wqSrc c5wPreset [] = none ∧
    strTyped c5wqSrc.sourceDocument = true ∧
    strTyped c5wqSrc.coreConcept = true ∧
    strTyped c5wqSrc.analysis = true ∧
    mapQuestionToSyllabus c5wqSrc (some c5wPreset) [] (some c5bank) =
      decisionSpec (topicCandsOf (qTextCtxOf c5wqSrc (some c5bank)) c5wPreset.books)
        (bookCandsOf (qTextCtxOf c5wqSrc (some c5bank)) c5wPreset.books) ∧
    mapQuestionToSyllabus c5wqSrc (some c5wPreset) [] (some c5bank) =
      some ⟨"bk-hist", some (Json.str "t-rome")⟩ :=
  ⟨rfl, rfl, rfl, rfl,
    mapQuestion_scoring_decision c5wqSrc c5wPreset [] (some c5bank) rfl rfl rfl rfl, rfl⟩
